import Mathlib

/-!
Verification of the perception pipeline of `sentinel-map`
(`src/modules/perception/detect_and_extract.py`, with the OCR-ensemble
test utility `src/modules/perception/test_gps_ocr.py`).

Modelling conventions, used throughout:

* Python floats are modelled as exact rationals (`ℚ`); every arithmetic
  expression is translated term-for-term from the source, so formula-level
  claims are settled exactly.
* Overlay text is modelled as `String` / `List Char`, with the ASCII
  behaviour of Python's `re` character classes and `str.upper`.
* External capabilities (the tesseract OCR engine, the cv2 image
  operations, the YOLO detector, the filesystem) are parameters of the
  embedding, as the spec declares them collaborator boundaries: an OCR
  result is an `Option String` (`none` = the library import or the
  recognition call raised), detector output is a list of raw detections
  carried by each frame, and file writes are trace events that may fail
  at a given operation index (an `IOError`).
* Python exceptions inside the decoder's `try` block are modelled with
  `Except`; the enclosing `except ... pass` is the explicit `match` that
  maps every error to the fallback path.
-/

/-! ### Python primitives -/

/-- Python `x % m` on floats (here exact rationals): `x - m * floor (x / m)`,
which for `m > 0` is the value in `[0, m)`. -/
def pymod (x m : ℚ) : ℚ := x - m * (⌊x / m⌋ : ℚ)

/-- ASCII decimal digit: Python's `\d` on overlay text, and `str.isdigit`. -/
def isDigit09 (c : Char) : Bool := 48 ≤ c.toNat && c.toNat ≤ 57

/-- The literal dot in the number patterns. -/
def isDot (c : Char) : Bool := c == '.'

/-- Python regex `\s` (ASCII fragment): space, `\t`, `\n`, `\v`, `\f`, `\r`. -/
def isPySpace (c : Char) : Bool :=
  c.toNat == 32 || c.toNat == 9 || c.toNat == 10 || c.toNat == 13 ||
    c.toNat == 11 || c.toNat == 12

/-- The class `[NS]` under `re.IGNORECASE`. -/
def isNSchar (c : Char) : Bool := c == 'N' || c == 'n' || c == 'S' || c == 's'

/-- The class `[EW]` under `re.IGNORECASE`. -/
def isEWchar (c : Char) : Bool := c == 'E' || c == 'e' || c == 'W' || c == 'w'

/-- Python `str.upper` on one char (ASCII fragment). -/
def pyUpperChar (c : Char) : Char :=
  if 97 ≤ c.toNat ∧ c.toNat ≤ 122 then Char.ofNat (c.toNat - 32) else c

/-- `target in s.upper()`: how the source tests for an `S`/`W` marker in
`match.group(0)`. -/
def containsUpper (s : List Char) (target : Char) : Bool :=
  s.any (fun c => pyUpperChar c == target)

/-! ### A small backtracking regex engine

The decoder uses three `re.search` patterns built from character classes
with quantifiers (`[NS]\s*(\d+\.?\s*\d+)`, the `[EW]` twin, and
`(\d+)\s*KM/H`).  We embed exactly that fragment: a pattern is a list of
quantified character classes, matched with Python's leftmost search and
greedy backtracking. -/

/-- One quantified character class of a pattern: `p`, `p?`, `p*` or `p+`. -/
inductive Rx where
  | one (p : Char → Bool)
  | opt (p : Char → Bool)
  | star (p : Char → Bool)
  | plus (p : Char → Bool)

/-- The underlying character class of an element. -/
def Rx.cls : Rx → Char → Bool
  | .one p => p
  | .opt p => p
  | .star p => p
  | .plus p => p

/-- Length of the maximal run of `p`-chars at the head of `s`. -/
def countWhile (p : Char → Bool) (s : List Char) : ℕ := (s.takeWhile p).length

/-- The lengths one element may consume from the head of `s`, in Python's
backtracking priority order (greedy: longest candidate first). -/
def elemTakes : Rx → List Char → List ℕ
  | .one p, c :: _ => if p c then [1] else []
  | .one _, [] => []
  | .opt p, c :: _ => if p c then [1, 0] else [0]
  | .opt _, [] => [0]
  | .star p, s => (List.range (countWhile p s + 1)).reverse
  | .plus p, s => ((List.range (countWhile p s)).map (· + 1)).reverse

/-- All ways a sequence of elements can match a prefix of `s`, as
`(consumed, rest)` pairs in backtracking priority order; the head of the
list is the match Python's engine commits to. -/
def matchSeq : List Rx → List Char → List (List Char × List Char)
  | [], s => [([], s)]
  | e :: es, s =>
    (elemTakes e s).flatMap fun k =>
      (matchSeq es (s.drop k)).map fun cr => (s.take k ++ cr.1, cr.2)

/-- Match `pre (grp) post` anchored at the head of `s`, returning Python's
`(match.group(0), match.group(1))` on success. -/
def matchAt (pre grp post : List Rx) (s : List Char) : Option (List Char × List Char) :=
  (((matchSeq pre s).flatMap fun c1 =>
      (matchSeq grp c1.2).flatMap fun c2 =>
        (matchSeq post c2.2).map fun c3 => (c1.1 ++ c2.1 ++ c3.1, c2.1))).head?

/-- `re.search`: try the anchored match at every start position, leftmost
first. -/
def reSearch (pre grp post : List Rx) : List Char → Option (List Char × List Char)
  | [] => matchAt pre grp post []
  | c :: t =>
    match matchAt pre grp post (c :: t) with
    | some g => some g
    | none => reSearch pre grp post t

/-! ### Soundness of the engine

Facts needed about any successful match: the consumed characters satisfy
the classes of the pattern, and decompositions through `matchAt`. -/

theorem countWhile_cons (p : Char → Bool) (a : Char) (t : List Char) :
    countWhile p (a :: t) = if p a then countWhile p t + 1 else 0 := by
  by_cases h : p a <;> simp [countWhile, List.takeWhile_cons, h]

theorem mem_take_of_le_countWhile (p : Char → Bool) :
    ∀ (s : List Char) (k : ℕ), k ≤ countWhile p s → ∀ c ∈ s.take k, p c = true := by
  intro s
  induction s with
  | nil => intro k _ c hc; simp at hc
  | cons a t ih =>
    intro k hk c hc
    rw [countWhile_cons] at hk
    by_cases ha : p a
    · simp [ha] at hk
      cases k with
      | zero => simp at hc
      | succ k =>
        simp [List.take_succ_cons] at hc
        rcases hc with rfl | hc
        · exact ha
        · exact ih k (by omega) c hc
    · simp [ha] at hk
      subst hk; simp at hc

theorem mem_elemTakes_le (e : Rx) (s : List Char) (k : ℕ) (hk : k ∈ elemTakes e s) :
    k ≤ countWhile (Rx.cls e) s := by
  cases e with
  | one p =>
    cases s with
    | nil => simp [elemTakes] at hk
    | cons a t =>
      simp only [elemTakes] at hk
      by_cases ha : p a
      · simp [ha] at hk; subst hk
        simp [Rx.cls, countWhile_cons, ha]
      · simp [ha] at hk
  | opt p =>
    cases s with
    | nil => simp [elemTakes] at hk; omega
    | cons a t =>
      simp only [elemTakes] at hk
      by_cases ha : p a
      · simp [ha] at hk
        rcases hk with rfl | rfl
        · simp [Rx.cls, countWhile_cons, ha]
        · omega
      · simp [ha] at hk; omega
  | star p =>
    simp only [elemTakes, List.mem_reverse, List.mem_range] at hk
    simp [Rx.cls]; omega
  | plus p =>
    simp only [elemTakes, List.mem_reverse, List.mem_map, List.mem_range] at hk
    obtain ⟨j, hj, rfl⟩ := hk
    simp [Rx.cls]; omega

theorem matchSeq_sound :
    ∀ (pat : List Rx) (s c r : List Char), (c, r) ∈ matchSeq pat s →
      c ++ r = s ∧ ∀ ch ∈ c, ∃ e ∈ pat, Rx.cls e ch = true := by
  intro pat
  induction pat with
  | nil =>
    intro s c r h
    simp [matchSeq] at h
    obtain ⟨rfl, rfl⟩ := h
    simp
  | cons e es ih =>
    intro s c r h
    simp only [matchSeq, List.mem_flatMap, List.mem_map] at h
    obtain ⟨k, hk, ⟨c', r'⟩, hm, heq⟩ := h
    obtain ⟨h1, h2⟩ := Prod.mk.injEq .. ▸ heq
    obtain ⟨hsplit, hcls⟩ := ih (s.drop k) c' r' hm
    subst h1; subst h2
    constructor
    · rw [List.append_assoc, hsplit, List.take_append_drop]
    · intro ch hch
      rcases List.mem_append.mp hch with hch | hch
      · exact ⟨e, by simp, mem_take_of_le_countWhile _ s k (mem_elemTakes_le e s k hk) ch hch⟩
      · obtain ⟨e', he', hc⟩ := hcls ch hch
        exact ⟨e', by simp [he'], hc⟩

theorem matchSeq_nil_mem (s c r : List Char) (h : (c, r) ∈ matchSeq [] s) :
    c = [] ∧ r = s := by
  simpa [matchSeq] using h

theorem matchSeq_cons_one (p : Char → Bool) (es : List Rx) (s c r : List Char)
    (h : (c, r) ∈ matchSeq (Rx.one p :: es) s) :
    ∃ m s' c', s = m :: s' ∧ p m = true ∧ c = m :: c' ∧ (c', r) ∈ matchSeq es s' := by
  cases s with
  | nil => simp [matchSeq, elemTakes] at h
  | cons a t =>
    simp only [matchSeq, List.mem_flatMap, List.mem_map] at h
    obtain ⟨k, hk, ⟨c', r'⟩, hm, heq⟩ := h
    simp only [elemTakes] at hk
    by_cases ha : p a
    · simp [ha] at hk
      subst hk
      obtain ⟨h1, h2⟩ := Prod.mk.injEq .. ▸ heq
      exact ⟨a, t, c', rfl, ha, by simp [← h1], by simpa [← h2] using hm⟩
    · simp [ha] at hk

theorem mem_of_head?_eq (l : List (List Char × List Char)) (g : List Char × List Char)
    (h : l.head? = some g) : g ∈ l := by
  cases l with
  | nil => simp at h
  | cons a t => simp at h; simp [h]

theorem matchAt_sound (pre grp post : List Rx) (s g0 g1 : List Char)
    (h : matchAt pre grp post s = some (g0, g1)) :
    ∃ c1 r1 r2 c3 r3, (c1, r1) ∈ matchSeq pre s ∧ (g1, r2) ∈ matchSeq grp r1 ∧
      (c3, r3) ∈ matchSeq post r2 ∧ g0 = c1 ++ g1 ++ c3 := by
  have hmem := mem_of_head?_eq _ _ h
  simp only [List.mem_flatMap, List.mem_map] at hmem
  obtain ⟨⟨c1, r1⟩, h1, ⟨c2, r2⟩, h2, ⟨c3, r3⟩, h3, heq⟩ := hmem
  simp only [Prod.mk.injEq] at heq
  obtain ⟨e0, e1⟩ := heq
  subst e1
  exact ⟨c1, r1, r2, c3, r3, h1, h2, h3, e0.symm⟩

theorem reSearch_sound (pre grp post : List Rx) :
    ∀ (s : List Char) (g : List Char × List Char),
      reSearch pre grp post s = some g → ∃ t, matchAt pre grp post t = some g := by
  intro s
  induction s with
  | nil => intro g h; exact ⟨[], h⟩
  | cons a t ih =>
    intro g h
    simp only [reSearch] at h
    cases hm : matchAt pre grp post (a :: t) with
    | some g' =>
      rw [hm] at h
      simp only at h
      exact ⟨a :: t, by rw [hm, h]⟩
    | none =>
      rw [hm] at h
      simp only at h
      exact ih g h

/-! ### Python `float()` on the strings reachable from the decoder

The matched number groups consist of digits, at most one dot, whitespace
and (for the secondary patterns of the test utility) a leading sign, so we
model `float()` on exactly that fragment: optional surrounding whitespace,
optional sign, digits with at most one dot; anything else (e.g. a stray
tab inside the digits) raises `ValueError`, modelled as `none`.  The value
is kept as `(sign, integer part, fractional digits, #fractional digits)`
so that the parse is decidable and the rational value is assembled at the
boundary. -/

/-- `str.replace(' ', '').replace('\n', '')` from the source: note this
removes only spaces and newlines, not the other `\s` characters. -/
def stripSpNl (s : List Char) : List Char :=
  s.filter (fun c => !(c == ' ' || c == '\n'))

/-- Decimal value of a digit string (also reads back zero-padded names). -/
def natOfDigits (s : List Char) : ℕ :=
  s.foldl (fun a c => 10 * a + (c.toNat - 48)) 0

/-- Leading/trailing whitespace is ignored by Python `float()`. -/
def trimPySpace (s : List Char) : List Char :=
  ((s.dropWhile isPySpace).reverse.dropWhile isPySpace).reverse

/-- Unsigned part of `float()`: digits with at most one dot, at least one
digit in total. Returns `(integer part, fractional digits, #fractional digits)`. -/
def pyUFloatParts (u : List Char) : Option (ℕ × ℕ × ℕ) :=
  let d1 := u.takeWhile isDigit09
  match u.dropWhile isDigit09 with
  | [] => if d1.isEmpty then none else some (natOfDigits d1, 0, 0)
  | '.' :: f =>
    if f.all isDigit09 && !(d1.isEmpty && f.isEmpty) then
      some (natOfDigits d1, natOfDigits f, f.length)
    else none
  | _ => none

/-- Sign handling of `float()` after trimming: a leading `-` or `+`. -/
def pyFloatSigned : List Char → Option (Bool × ℕ × ℕ × ℕ)
  | [] => none
  | c :: u =>
    if c = '-' then (pyUFloatParts u).map (fun p => (true, p))
    else if c = '+' then (pyUFloatParts u).map (fun p => (false, p))
    else (pyUFloatParts (c :: u)).map (fun p => (false, p))

/-- Signed `float()` parts: the `Bool` is `true` for a leading `-`. -/
def pyFloatParts (s : List Char) : Option (Bool × ℕ × ℕ × ℕ) :=
  pyFloatSigned (trimPySpace s)

/-- Rational value of parsed `float()` parts. -/
def ratOfParts : Bool × ℕ × ℕ × ℕ → ℚ
  | (sgn, ip, fp, k) =>
    let v : ℚ := (ip : ℚ) + (fp : ℚ) / (10 : ℚ) ^ k
    if sgn then -v else v

/-- Python `float(s)` on the reachable fragment, as an exact rational;
`none` models a `ValueError`. -/
def pyFloatQ (s : List Char) : Option ℚ := (pyFloatParts s).map ratOfParts

/-! ### The GeoFix decoder — `PerceptionPipeline.extract_gps_from_frame`

`detect_and_extract.py` lines 55-132.  The OCR text is a capability input:
`none` models `pytesseract` being unavailable or the recognition call
raising.  Inside the `try` block a failed `float()` raises `ValueError`,
which (like every other exception) is caught by the blanket
`except (ImportError, Exception)` and turned into the fallback path. -/

/-- Group pattern of `[NS]\s*(\d+\.?\s*\d+)` / `[EW]\s*(\d+\.?\s*\d+)`. -/
def numGrp : List Rx :=
  [Rx.plus isDigit09, Rx.opt isDot, Rx.star isPySpace, Rx.plus isDigit09]

/-- `re.search(r'[NS]\s*(\d+\.?\s*\d+)', text, re.IGNORECASE)` (line 94). -/
def latSearch (s : List Char) : Option (List Char × List Char) :=
  reSearch [Rx.one isNSchar, Rx.star isPySpace] numGrp [] s

/-- `re.search(r'[EW]\s*(\d+\.?\s*\d+)', text, re.IGNORECASE)` (line 102). -/
def lonSearch (s : List Char) : Option (List Char × List Char) :=
  reSearch [Rx.one isEWchar, Rx.star isPySpace] numGrp [] s

/-- `re.search(r'(\d+)\s*KM/H', text, re.IGNORECASE)` (line 110). -/
def headSearch (s : List Char) : Option (List Char × List Char) :=
  reSearch [] [Rx.plus isDigit09]
    [Rx.star isPySpace, Rx.one (fun c => c == 'K' || c == 'k'),
     Rx.one (fun c => c == 'M' || c == 'm'), Rx.one (fun c => c == '/'),
     Rx.one (fun c => c == 'H' || c == 'h')] s

/-- Lines 94-99: latitude match, whitespace strip, `float()` (may raise,
modelled as `Except.error`), and `S` sign handling via
`'S' in match.group(0).upper()`. -/
def parseLat (text : List Char) : Except Unit (Option ℚ) :=
  match latSearch text with
  | none => .ok none
  | some (g0, g1) =>
    match pyFloatQ (stripSpNl g1) with
    | none => .error ()
    | some v => .ok (some (if containsUpper g0 'S' then -|v| else v))

/-- Lines 102-107: longitude match, same shape, `W` is negative. -/
def parseLon (text : List Char) : Except Unit (Option ℚ) :=
  match lonSearch text with
  | none => .ok none
  | some (g0, g1) =>
    match pyFloatQ (stripSpNl g1) with
    | none => .error ()
    | some v => .ok (some (if containsUpper g0 'W' then -|v| else v))

/-- Lines 110-112: speed used as heading; `float()` on a `\d+` group never
raises. -/
def parseHeading (text : List Char) : Option ℚ :=
  (headSearch text).map (fun g => ((natOfDigits g.2 : ℕ) : ℚ))

/-- The body of the `try` block (lines 70-116): `some fix` iff both
latitude and longitude were recovered and no statement raised; `none`
covers every exception and the fall-through when a coordinate is missing. -/
def tryDecode (ocrText : Option String) : Option (ℚ × ℚ × ℚ) :=
  match ocrText with
  | none => none
  | some text =>
    match parseLat text.data with
    | .error _ => none
    | .ok lat =>
      match parseLon text.data with
      | .error _ => none
      | .ok lon =>
        match lat, lon with
        | some la, some lo => some (la, lo, (parseHeading text.data).getD 0)
        | _, _ => none

/-- Lines 122-132: the deterministic fallback fix, a pure function of the
frame index. -/
def fallbackFix (frame_number : ℕ) : ℚ × ℚ × ℚ :=
  let base_lat : ℚ := 43.7900
  let base_lon : ℚ := -79.3140
  let base_heading : ℚ := 45.0
  (base_lat + ((frame_number : ℚ) / 10000) * 0.0001,
   base_lon + ((frame_number : ℚ) / 10000) * 0.0001,
   pymod (base_heading + ((frame_number : ℚ) / 100) * 2.5) 360)

/-- `extract_gps_from_frame` (lines 55-132): the `try` body with the
blanket `except` absorbing every failure into the fallback. -/
def extract_gps_from_frame (ocrText : Option String) (frame_number : ℕ) : ℚ × ℚ × ℚ :=
  match tryDecode ocrText with
  | some fix => fix
  | none => fallbackFix frame_number

/-! ### Character-level facts used by the sign rules -/

theorem numchar_le (ch : Char) (h : (isDigit09 ch || isDot ch || isPySpace ch) = true) :
    ch.toNat ≤ 57 := by
  simp only [Bool.or_eq_true] at h
  rcases h with (h | h) | h
  · simp only [isDigit09, Bool.and_eq_true, decide_eq_true_eq] at h
    omega
  · simp only [isDot, beq_iff_eq] at h
    subst h
    decide
  · simp only [isPySpace, Bool.or_eq_true, beq_iff_eq] at h
    rcases h with ((((h | h) | h) | h) | h) | h <;> omega

theorem pyUpperChar_fix (ch : Char) (h : ch.toNat < 97) : pyUpperChar ch = ch := by
  unfold pyUpperChar
  rw [if_neg]
  omega

theorem numchar_not_upper (ch : Char)
    (h : (isDigit09 ch || isDot ch || isPySpace ch) = true) (target : Char)
    (htgt : 57 < target.toNat) : (pyUpperChar ch == target) = false := by
  have hle := numchar_le ch h
  rw [pyUpperChar_fix ch (by omega)]
  simp only [beq_eq_false_iff_ne, ne_eq]
  intro hEq
  subst hEq
  omega

theorem mem_trimPySpace (c : Char) (s : List Char) (h : c ∈ trimPySpace s) : c ∈ s := by
  unfold trimPySpace at h
  rw [List.mem_reverse] at h
  have h2 : c ∈ (s.dropWhile isPySpace).reverse :=
    (List.dropWhile_sublist _).subset h
  rw [List.mem_reverse] at h2
  exact (List.dropWhile_sublist _).subset h2

theorem ratOfParts_false_nonneg (p : ℕ × ℕ × ℕ) : 0 ≤ ratOfParts (false, p) := by
  obtain ⟨ip, fp, k⟩ := p
  unfold ratOfParts
  simp only [Bool.false_eq_true, if_false]
  positivity

theorem pyFloatParts_false_of_no_minus (s : List Char) (hs : ¬ '-' ∈ s)
    (p : Bool × ℕ × ℕ × ℕ) (h : pyFloatParts s = some p) : p.1 = false := by
  unfold pyFloatParts at h
  cases htrim : trimPySpace s with
  | nil => rw [htrim] at h; simp [pyFloatSigned] at h
  | cons c u =>
    rw [htrim] at h
    simp only [pyFloatSigned] at h
    have hcm : c ∈ s := mem_trimPySpace c s (htrim ▸ List.mem_cons_self c u)
    have hc : ¬ c = '-' := fun he => hs (he ▸ hcm)
    rw [if_neg hc] at h
    by_cases hc2 : c = '+'
    · rw [if_pos hc2] at h
      simp only [Option.map_eq_some'] at h
      obtain ⟨q, _, rfl⟩ := h
      rfl
    · rw [if_neg hc2] at h
      simp only [Option.map_eq_some'] at h
      obtain ⟨q, _, rfl⟩ := h
      rfl

theorem pyFloatQ_nonneg_of_no_minus (s : List Char) (hs : ¬ '-' ∈ s) (v : ℚ)
    (h : pyFloatQ s = some v) : 0 ≤ v := by
  unfold pyFloatQ at h
  simp only [Option.map_eq_some'] at h
  obtain ⟨p, hp, rfl⟩ := h
  have hf := pyFloatParts_false_of_no_minus s hs p hp
  obtain ⟨sgn, q⟩ := p
  cases sgn with
  | false => exact ratOfParts_false_nonneg q
  | true => simp at hf

/-! ### Shape of a successful coordinate match

Any successful `[NS]\s*(\d+\.?\s*\d+)`-style search yields `group(0)` of
the form `marker :: rest` with the marker in the class and every `rest`
character a digit, a dot, or whitespace.  This is what makes the source's
`'S' in group(0).upper()` test equivalent to "the marker is `S`". -/

theorem numGrp_chars (ch : Char) (e : Rx) (he : e ∈ numGrp) (hc : Rx.cls e ch = true) :
    (isDigit09 ch || isDot ch || isPySpace ch) = true := by
  simp only [numGrp, List.mem_cons, List.not_mem_nil, or_false] at he
  rcases he with rfl | rfl | rfl | rfl <;>
    simp only [Rx.cls] at hc <;> simp [hc]

theorem coordSearch_shape (mark : Char → Bool) (t g0 g1 : List Char)
    (h : reSearch [Rx.one mark, Rx.star isPySpace] numGrp [] t = some (g0, g1)) :
    ∃ m rest, g0 = m :: rest ∧ mark m = true ∧
      (∀ c ∈ rest, (isDigit09 c || isDot c || isPySpace c) = true) ∧
      (∀ c ∈ g1, (isDigit09 c || isDot c || isPySpace c) = true) := by
  obtain ⟨t', hm⟩ := reSearch_sound _ _ _ t (g0, g1) h
  obtain ⟨c1, r1, r2, c3, r3, h1, h2, h3, hg0⟩ := matchAt_sound _ _ _ t' g0 g1 hm
  obtain ⟨hc3, _⟩ := matchSeq_nil_mem r2 c3 r3 h3
  subst hc3
  obtain ⟨m, s', c1', _, hmark, hc1, h1'⟩ := matchSeq_cons_one mark _ t' c1 r1 h1
  have hg1cls := (matchSeq_sound numGrp r1 g1 r2 h2).2
  have hc1cls := (matchSeq_sound [Rx.star isPySpace] s' c1' r1 h1').2
  refine ⟨m, c1' ++ g1, ?_, hmark, ?_, ?_⟩
  · rw [hg0, hc1]
    simp
  · intro c hc
    rcases List.mem_append.mp hc with hc | hc
    · obtain ⟨e, he, hcls⟩ := hc1cls c hc
      simp only [List.mem_cons, List.not_mem_nil, or_false] at he
      subst he
      simp only [Rx.cls] at hcls
      simp [hcls]
    · obtain ⟨e, he, hcls⟩ := hg1cls c hc
      exact numGrp_chars c e he hcls
  · intro c hc
    obtain ⟨e, he, hcls⟩ := hg1cls c hc
    exact numGrp_chars c e he hcls

theorem g1_no_minus (g1 : List Char)
    (hcls : ∀ c ∈ g1, (isDigit09 c || isDot c || isPySpace c) = true) :
    ¬ '-' ∈ stripSpNl g1 := by
  intro hmem
  unfold stripSpNl at hmem
  have h1 : ('-' : Char) ∈ g1 := (List.mem_filter.mp hmem).1
  have h2 := hcls '-' h1
  revert h2
  decide

theorem coordSign_core (mark : Char → Bool) (neg : Char) (hneg : 57 < neg.toNat)
    (t g0 g1 : List Char)
    (hsr : reSearch [Rx.one mark, Rx.star isPySpace] numGrp [] t = some (g0, g1))
    (v : ℚ) (hpf : pyFloatQ (stripSpNl g1) = some v) :
    ∃ m rest, g0 = m :: rest ∧ mark m = true ∧ 0 ≤ v ∧
      containsUpper g0 neg = (pyUpperChar m == neg) := by
  obtain ⟨m, rest, hg0, hmark, hrest, hg1⟩ := coordSearch_shape mark t g0 g1 hsr
  have hv : 0 ≤ v := pyFloatQ_nonneg_of_no_minus _ (g1_no_minus g1 hg1) v hpf
  refine ⟨m, rest, hg0, hmark, hv, ?_⟩
  rw [hg0]
  unfold containsUpper
  rw [List.any_cons]
  have hfalse : rest.any (fun c => pyUpperChar c == neg) = false := by
    rw [List.any_eq_false]
    intro c hc
    rw [numchar_not_upper c (hrest c hc) neg hneg]
    simp
  rw [hfalse, Bool.or_false]

theorem if_sign_iff (b : Bool) (v : ℚ) (hv : 0 ≤ v)
    (hne : (if b = true then -|v| else v) ≠ 0) :
    ((if b = true then -|v| else v) < 0 ↔ b = true) := by
  cases b with
  | false =>
    simp only [Bool.false_eq_true, if_false]
    constructor
    · intro hlt; exact absurd hlt (not_lt.mpr hv)
    · intro hc; simp at hc
  | true =>
    simp only [if_true] at hne ⊢
    have h0 : |v| ≠ 0 := fun hz => hne (by rw [hz, neg_zero])
    have hpos : 0 < |v| := lt_of_le_of_ne (abs_nonneg v) (Ne.symm h0)
    constructor
    · intro _; simp
    · intro _; linarith

/-- Sign rule for the latitude parse (lines 94-99): a successfully parsed
nonzero latitude is negative exactly when the matched marker char is
`S`/`s`. -/
theorem parseLat_sign (t : List Char) (l : ℚ) (h : parseLat t = Except.ok (some l))
    (hl : l ≠ 0) :
    ∃ g0 g1 m rest, latSearch t = some (g0, g1) ∧ g0 = m :: rest ∧ isNSchar m = true ∧
      (l < 0 ↔ (m = 'S' ∨ m = 's')) := by
  unfold parseLat at h
  split at h
  · simp at h
  · rename_i g0 g1 heq
    split at h
    · simp at h
    · rename_i v hpf
      simp only [Except.ok.injEq, Option.some.injEq] at h
      obtain ⟨m, rest, hg0, hmark, hv, hcu⟩ :=
        coordSign_core isNSchar 'S' (by decide) t g0 g1 heq v hpf
      refine ⟨g0, g1, m, rest, heq, hg0, hmark, ?_⟩
      subst h
      rw [if_sign_iff (containsUpper g0 'S') v hv hl, hcu]
      simp only [isNSchar, Bool.or_eq_true, beq_iff_eq] at hmark
      rcases hmark with ((rfl | rfl) | rfl) | rfl <;> decide

/-- Sign rule for the longitude parse (lines 102-107): a successfully
parsed nonzero longitude is negative exactly when the matched marker char
is `W`/`w`. -/
theorem parseLon_sign (t : List Char) (l : ℚ) (h : parseLon t = Except.ok (some l))
    (hl : l ≠ 0) :
    ∃ g0 g1 m rest, lonSearch t = some (g0, g1) ∧ g0 = m :: rest ∧ isEWchar m = true ∧
      (l < 0 ↔ (m = 'W' ∨ m = 'w')) := by
  unfold parseLon at h
  split at h
  · simp at h
  · rename_i g0 g1 heq
    split at h
    · simp at h
    · rename_i v hpf
      simp only [Except.ok.injEq, Option.some.injEq] at h
      obtain ⟨m, rest, hg0, hmark, hv, hcu⟩ :=
        coordSign_core isEWchar 'W' (by decide) t g0 g1 heq v hpf
      refine ⟨g0, g1, m, rest, heq, hg0, hmark, ?_⟩
      subst h
      rw [if_sign_iff (containsUpper g0 'W') v hv hl, hcu]
      simp only [isEWchar, Bool.or_eq_true, beq_iff_eq] at hmark
      rcases hmark with ((rfl | rfl) | rfl) | rfl <;> decide

/-! ### Bounds of the Python modulo -/

theorem pymod_eq_mul_fract (x m : ℚ) (hm : m ≠ 0) :
    pymod x m = m * Int.fract (x / m) := by
  have hx : m * (x / m) = x := by
    rw [mul_comm]
    exact div_mul_cancel₀ x hm
  unfold pymod Int.fract
  rw [mul_sub, hx]

theorem pymod_nonneg (x m : ℚ) (hm : 0 < m) : 0 ≤ pymod x m := by
  rw [pymod_eq_mul_fract x m hm.ne']
  exact mul_nonneg hm.le (Int.fract_nonneg _)

theorem pymod_lt (x m : ℚ) (hm : 0 < m) : pymod x m < m := by
  rw [pymod_eq_mul_fract x m hm.ne']
  calc m * Int.fract (x / m) < m * 1 :=
        (mul_lt_mul_left hm).mpr (Int.fract_lt_one _)
    _ = m := mul_one m

/-! ### Evaluation helpers for concrete decodes -/

theorem parseLat_eval (t g0 g1 : List Char) (p : Bool × ℕ × ℕ × ℕ) (b : Bool)
    (h1 : latSearch t = some (g0, g1)) (h2 : pyFloatParts (stripSpNl g1) = some p)
    (h3 : containsUpper g0 'S' = b) :
    parseLat t = .ok (some (if b then -|ratOfParts p| else ratOfParts p)) := by
  simp only [parseLat, h1, pyFloatQ, h2, Option.map_some', h3]

theorem parseLat_eval_err (t g0 g1 : List Char)
    (h1 : latSearch t = some (g0, g1)) (h2 : pyFloatParts (stripSpNl g1) = none) :
    parseLat t = .error () := by
  simp only [parseLat, h1, pyFloatQ, h2, Option.map_none']

theorem parseLat_eval_none (t : List Char) (h1 : latSearch t = none) :
    parseLat t = .ok none := by
  simp only [parseLat, h1]

theorem parseLon_eval (t g0 g1 : List Char) (p : Bool × ℕ × ℕ × ℕ) (b : Bool)
    (h1 : lonSearch t = some (g0, g1)) (h2 : pyFloatParts (stripSpNl g1) = some p)
    (h3 : containsUpper g0 'W' = b) :
    parseLon t = .ok (some (if b then -|ratOfParts p| else ratOfParts p)) := by
  simp only [parseLon, h1, pyFloatQ, h2, Option.map_some', h3]

theorem parseLon_eval_none (t : List Char) (h1 : lonSearch t = none) :
    parseLon t = .ok none := by
  simp only [parseLon, h1]

theorem parseHeading_eval (t g0 g1 : List Char) (h : headSearch t = some (g0, g1)) :
    parseHeading t = some ((natOfDigits g1 : ℕ) : ℚ) := by
  simp only [parseHeading, h, Option.map_some']

theorem parseHeading_eval_none (t : List Char) (h : headSearch t = none) :
    parseHeading t = none := by
  simp only [parseHeading, h, Option.map_none']

theorem tryDecode_eval (s : String) (la lo hd : ℚ)
    (hla : parseLat s.data = .ok (some la)) (hlo : parseLon s.data = .ok (some lo))
    (hhd : (parseHeading s.data).getD 0 = hd) :
    tryDecode (some s) = some (la, lo, hd) := by
  simp only [tryDecode, hla, hlo, hhd]

theorem tryDecode_err_lat (s : String) (h : parseLat s.data = .error ()) :
    tryDecode (some s) = none := by
  simp only [tryDecode, h]

theorem tryDecode_no_coord (s : String)
    (hla : parseLat s.data = .ok none) (hlo : parseLon s.data = .ok none) :
    tryDecode (some s) = none := by
  simp only [tryDecode, hla, hlo]

theorem extract_of_some (o : Option String) (fix : ℚ × ℚ × ℚ) (n : ℕ)
    (h : tryDecode o = some fix) : extract_gps_from_frame o n = fix := by
  simp only [extract_gps_from_frame, h]

theorem extract_of_none (o : Option String) (n : ℕ)
    (h : tryDecode o = none) : extract_gps_from_frame o n = fallbackFix n := by
  simp only [extract_gps_from_frame, h]

theorem tryDecode_some_shape (o : Option String) (fix : ℚ × ℚ × ℚ)
    (h : tryDecode o = some fix) :
    ∃ s la lo, o = some s ∧ fix = (la, lo, (parseHeading s.data).getD 0) := by
  cases o with
  | none => simp [tryDecode] at h
  | some s =>
    refine ⟨s, ?_⟩
    cases hla : parseLat s.data with
    | error e =>
      rw [show tryDecode (some s) = none from by simp only [tryDecode, hla]] at h
      simp at h
    | ok lat =>
      cases hlo : parseLon s.data with
      | error e =>
        rw [show tryDecode (some s) = none from by simp only [tryDecode, hla, hlo]] at h
        simp at h
      | ok lon =>
        cases lat with
        | none =>
          rw [show tryDecode (some s) = none from by simp only [tryDecode, hla, hlo]] at h
          simp at h
        | some la =>
          cases lon with
          | none =>
            rw [show tryDecode (some s) = none from by simp only [tryDecode, hla, hlo]] at h
            simp at h
          | some lo =>
            rw [show tryDecode (some s) = some (la, lo, (parseHeading s.data).getD 0) from by
              simp only [tryDecode, hla, hlo]] at h
            simp only [Option.some.injEq] at h
            exact ⟨la, lo, rfl, h.symm⟩

theorem parseHeading_getD_nonneg (t : List Char) : 0 ≤ (parseHeading t).getD 0 := by
  cases h : headSearch t with
  | none => simp [parseHeading_eval_none t h]
  | some g =>
    obtain ⟨g0, g1⟩ := g
    rw [parseHeading_eval t g0 g1 h]
    simp only [Option.getD_some]
    positivity

/-! ### Claims about the decoder -/

/-- C2: for every `frameIndex ≥ 0`, whenever decoding falls back (the
`try` body yields no fix), the returned GeoFix is exactly
`lat = 43.7900 + (frameIndex/10000)*0.0001`,
`lon = -79.3140 + (frameIndex/10000)*0.0001`,
`heading = (45.0 + (frameIndex/100)*2.5) mod 360` (Python float `%`,
modelled by `pymod`), a pure function of the frame index alone — hence
bit-reproducible across runs. -/
theorem C2_fallback_deterministic (n : ℕ) (o : Option String) (h : tryDecode o = none) :
    extract_gps_from_frame o n =
      (43.7900 + ((n : ℚ) / 10000) * 0.0001,
       -79.3140 + ((n : ℚ) / 10000) * 0.0001,
       pymod (45.0 + ((n : ℚ) / 100) * 2.5) 360) := by
  simp only [extract_gps_from_frame, h, fallbackFix]

theorem C2_fallback_deterministic_witness :
    extract_gps_from_frame none 7 =
      (43.7900 + (((7 : ℕ) : ℚ) / 10000) * 0.0001,
       -79.3140 + (((7 : ℕ) : ℚ) / 10000) * 0.0001,
       pymod (45.0 + (((7 : ℕ) : ℚ) / 100) * 2.5) 360) :=
  C2_fallback_deterministic 7 none rfl

/-- C6: the decoder is total: for every OCR outcome and frame index it
returns a populated `(lat, lon, heading)` triple; every failure of the
`try` body (capability unavailable, no match, `float()` raising) is
absorbed into the deterministic fallback, and a successful decode is
returned as-is.  The model's return type is a plain triple — no error
value escapes the component. -/
theorem C6_decode_failure_absorbed (o : Option String) (n : ℕ) :
    (∃ la lo hd, extract_gps_from_frame o n = (la, lo, hd)) ∧
    ((tryDecode o = none ∧ extract_gps_from_frame o n = fallbackFix n) ∨
      (∃ fix, tryDecode o = some fix ∧ extract_gps_from_frame o n = fix)) := by
  constructor
  · obtain ⟨la, lo, hd⟩ := extract_gps_from_frame o n
    exact ⟨la, lo, hd, rfl⟩
  · cases h : tryDecode o with
    | none => exact Or.inl ⟨rfl, extract_of_none o n h⟩
    | some fix => exact Or.inr ⟨fix, rfl, extract_of_some o fix n h⟩

/-- C7 counterexample: the decoded path uses the speed token directly as
heading, with no reduction into `[0, 360)`: the overlay text
`"400 KM/H N43.7 W79.3"` decodes to heading `400`, outside `[0, 360)` —
so "heading is a float in [0,360)" fails on the decoded path. -/
theorem C7_counterexample :
    extract_gps_from_frame (some "400 KM/H N43.7 W79.3") 0 = (43.7, -79.3, 400) ∧
    ¬ ((extract_gps_from_frame (some "400 KM/H N43.7 W79.3") 0).2.2 < 360) := by
  have hlat : parseLat ("400 KM/H N43.7 W79.3" : String).data = .ok (some (43.7 : ℚ)) := by
    rw [parseLat_eval _ "N43.7".data "43.7".data (false, 43, 7, 1) false
      (by decide) (by decide) (by decide)]
    norm_num [ratOfParts]
  have hlon : parseLon ("400 KM/H N43.7 W79.3" : String).data = .ok (some (-79.3 : ℚ)) := by
    rw [parseLon_eval _ "W79.3".data "79.3".data (false, 79, 3, 1) true
      (by decide) (by decide) (by decide)]
    norm_num [ratOfParts, abs_of_pos]
  have hhd : (parseHeading ("400 KM/H N43.7 W79.3" : String).data).getD 0 = 400 := by
    rw [parseHeading_eval _ "400 KM/H".data "400".data (by decide)]
    rw [show natOfDigits "400".data = 400 from by decide]
    norm_num
  have hfix := tryDecode_eval _ _ _ _ hlat hlon hhd
  refine ⟨extract_of_some _ _ 0 hfix, ?_⟩
  rw [extract_of_some _ _ 0 hfix]
  norm_num

/-- C7 amended: every GeoFix has latitude/longitude populated (the
decoder's result type) and a nonnegative heading; on the fallback path the
heading is the deterministic formula value reduced mod 360 and lies in
`[0, 360)`; on the decoded path the heading equals the parsed speed token
(defaulting to `0.0` when absent) and is *not* bounded by 360. -/
theorem C7_heading_partial_invariant (o : Option String) (n : ℕ) :
    0 ≤ (extract_gps_from_frame o n).2.2 ∧
    (tryDecode o = none →
      extract_gps_from_frame o n = fallbackFix n ∧
      0 ≤ (fallbackFix n).2.2 ∧ (fallbackFix n).2.2 < 360) ∧
    (∀ s fix, o = some s → tryDecode o = some fix →
      fix.2.2 = (parseHeading s.data).getD 0) := by
  refine ⟨?_, ?_, ?_⟩
  · cases h : tryDecode o with
    | none =>
      rw [extract_of_none o n h]
      exact pymod_nonneg _ 360 (by norm_num)
    | some fix =>
      rw [extract_of_some o fix n h]
      obtain ⟨s, la, lo, rfl, rfl⟩ := tryDecode_some_shape o fix h
      exact parseHeading_getD_nonneg _
  · intro h
    exact ⟨extract_of_none o n h, pymod_nonneg _ 360 (by norm_num),
      pymod_lt _ 360 (by norm_num)⟩
  · intro s fix hs hfix
    obtain ⟨s', la, lo, ho, hfix2⟩ := tryDecode_some_shape o fix hfix
    rw [hs] at ho
    have hss : s = s' := by injection ho
    rw [hfix2, ← hss]

theorem C7_heading_partial_invariant_witness :
    extract_gps_from_frame none 5 = fallbackFix 5 ∧
    0 ≤ (fallbackFix 5).2.2 ∧ (fallbackFix 5).2.2 < 360 :=
  (C7_heading_partial_invariant none 5).2.1 rfl

/-- C5 counterexample: OCR text `"N43.\t7 W79.3"` — the regex `\s*` matches
the tab inside the number, but the source strips only spaces and newlines
(`.replace(' ', '').replace('\n', '')`), so `float("43.\t7")` raises and
the whole decode falls back: the parser does **not** strip *all*
whitespace from inside the matched number.  The decoder returns the
fallback fix (lat `43.79`), not the overlay latitude `43.7`. -/
theorem C5_counterexample :
    extract_gps_from_frame (some "N43.\t7 W79.3") 0 = fallbackFix 0 ∧
    (extract_gps_from_frame (some "N43.\t7 W79.3") 0).1 ≠ 43.7 := by
  have h1 : latSearch ("N43.\t7 W79.3" : String).data =
      some ("N43.\t7".data, "43.\t7".data) := by decide
  have h2 : pyFloatParts (stripSpNl "43.\t7".data) = none := by decide
  have herr := parseLat_eval_err _ _ _ h1 h2
  have hd := tryDecode_err_lat _ herr
  refine ⟨extract_of_none _ 0 hd, ?_⟩
  rw [extract_of_none _ 0 hd]
  norm_num [fallbackFix]

/-- C5 amended: the worked examples hold exactly
(`"40 KM/H N43.792879 W79.314193"` → `(43.792879, -79.314193, 40.0)`;
an `S` marker makes the latitude negative), the sign of a parsed nonzero
coordinate is negative iff the matched marker is `S`/`s` (resp. `W`/`w`),
and spaces/newlines inserted by OCR inside the number are stripped before
parsing (third example); other whitespace captured inside the number is
not stripped and makes the decode fall back (see the counterexample). -/
theorem C5_parse_rules :
    extract_gps_from_frame (some "40 KM/H N43.792879 W79.314193") 3 =
      (43.792879, -79.314193, 40) ∧
    extract_gps_from_frame (some "S43.7 W79.3") 3 = (-43.7, -79.3, 0) ∧
    extract_gps_from_frame (some "N43. 792879 W79. 314193") 3 =
      (43.792879, -79.314193, 0) ∧
    (∀ t l, parseLat t = Except.ok (some l) → l ≠ 0 →
      ∃ g0 g1 m rest, latSearch t = some (g0, g1) ∧ g0 = m :: rest ∧
        isNSchar m = true ∧ (l < 0 ↔ (m = 'S' ∨ m = 's'))) ∧
    (∀ t l, parseLon t = Except.ok (some l) → l ≠ 0 →
      ∃ g0 g1 m rest, lonSearch t = some (g0, g1) ∧ g0 = m :: rest ∧
        isEWchar m = true ∧ (l < 0 ↔ (m = 'W' ∨ m = 'w'))) := by
  refine ⟨?_, ?_, ?_, parseLat_sign, parseLon_sign⟩
  · have hlat : parseLat ("40 KM/H N43.792879 W79.314193" : String).data =
        .ok (some (43.792879 : ℚ)) := by
      rw [parseLat_eval _ "N43.792879".data "43.792879".data (false, 43, 792879, 6) false
        (by decide) (by decide) (by decide)]
      norm_num [ratOfParts]
    have hlon : parseLon ("40 KM/H N43.792879 W79.314193" : String).data =
        .ok (some (-79.314193 : ℚ)) := by
      rw [parseLon_eval _ "W79.314193".data "79.314193".data (false, 79, 314193, 6) true
        (by decide) (by decide) (by decide)]
      norm_num [ratOfParts, abs_of_pos]
    have hhd : (parseHeading ("40 KM/H N43.792879 W79.314193" : String).data).getD 0 = 40 := by
      rw [parseHeading_eval _ "40 KM/H".data "40".data (by decide)]
      rw [show natOfDigits "40".data = 40 from by decide]
      norm_num
    exact extract_of_some _ _ 3 (tryDecode_eval _ _ _ _ hlat hlon hhd)
  · have hlat : parseLat ("S43.7 W79.3" : String).data = .ok (some (-43.7 : ℚ)) := by
      rw [parseLat_eval _ "S43.7".data "43.7".data (false, 43, 7, 1) true
        (by decide) (by decide) (by decide)]
      norm_num [ratOfParts, abs_of_pos]
    have hlon : parseLon ("S43.7 W79.3" : String).data = .ok (some (-79.3 : ℚ)) := by
      rw [parseLon_eval _ "W79.3".data "79.3".data (false, 79, 3, 1) true
        (by decide) (by decide) (by decide)]
      norm_num [ratOfParts, abs_of_pos]
    have hhd : (parseHeading ("S43.7 W79.3" : String).data).getD 0 = 0 := by
      rw [parseHeading_eval_none _ (by decide)]
      rfl
    exact extract_of_some _ _ 3 (tryDecode_eval _ _ _ _ hlat hlon hhd)
  · have hlat : parseLat ("N43. 792879 W79. 314193" : String).data =
        .ok (some (43.792879 : ℚ)) := by
      rw [parseLat_eval _ "N43. 792879".data "43. 792879".data (false, 43, 792879, 6) false
        (by decide) (by decide) (by decide)]
      norm_num [ratOfParts]
    have hlon : parseLon ("N43. 792879 W79. 314193" : String).data =
        .ok (some (-79.314193 : ℚ)) := by
      rw [parseLon_eval _ "W79. 314193".data "79. 314193".data (false, 79, 314193, 6) true
        (by decide) (by decide) (by decide)]
      norm_num [ratOfParts, abs_of_pos]
    have hhd : (parseHeading ("N43. 792879 W79. 314193" : String).data).getD 0 = 0 := by
      rw [parseHeading_eval_none _ (by decide)]
      rfl
    exact extract_of_some _ _ 3 (tryDecode_eval _ _ _ _ hlat hlon hhd)

theorem C5_parse_rules_witness :
    ∃ g0 g1 m rest, latSearch ("S12.5 W3.25" : String).data = some (g0, g1) ∧
      g0 = m :: rest ∧ isNSchar m = true ∧ ((-12.5 : ℚ) < 0 ↔ (m = 'S' ∨ m = 's')) :=
  C5_parse_rules.2.2.2.1 ("S12.5 W3.25" : String).data (-12.5)
    (by
      rw [parseLat_eval _ "S12.5".data "12.5".data (false, 12, 5, 1) true
        (by decide) (by decide) (by decide)]
      norm_num [ratOfParts, abs_of_pos])
    (by norm_num)

/-! ### The OCR preprocessing ensemble — production vs test utility

`detect_and_extract.py` lines 81-86 binarize the overlay crop **once**
(`cv2.threshold(gray, 127, 255, THRESH_BINARY)`) and make **one**
`image_to_string` call.  The three-variant ensemble with digit-count
selection exists only in `test_gps_ocr.py` (`extract_gps_from_frame_ocr`,
lines 44-69).  A recognition capability maps a binarization variant of
the current frame's crop to recognized text. -/

/-- The binarization variants appearing in the repository. -/
inductive OcrVariant where
  | binary
  | binaryInv
  | adaptiveGaussian

/-- Production decoder's preprocessing plan (`detect_and_extract.py`
lines 82-86): a single plain threshold, one OCR call. -/
def prodVariantPlan : List OcrVariant := [OcrVariant.binary]

/-- Test utility's preprocessing plan (`test_gps_ocr.py` lines 44-52):
plain threshold, inverted threshold, adaptive Gaussian threshold. -/
def testVariantPlan : List OcrVariant :=
  [OcrVariant.binary, OcrVariant.binaryInv, OcrVariant.adaptiveGaussian]

/-- The production GeoFix decoder as a function of the recognition
capability: it consults only the plain-threshold variant (line 86). -/
def extractGpsWithOcr (ocr : OcrVariant → Option String) (frame_number : ℕ) : ℚ × ℚ × ℚ :=
  extract_gps_from_frame (ocr OcrVariant.binary) frame_number

/-- `sum(c.isdigit() for c in text)` (`test_gps_ocr.py` line 69), ASCII. -/
def digitCount (s : String) : ℕ := (s.data.filter isDigit09).length

/-- One step of Python `max(..., key=digit count)`: replace the current
best only on strictly more digits, so the first maximum wins. -/
def maxStep (best x : String) : String :=
  if digitCount best < digitCount x then x else best

/-- Python `max(results, key=lambda x: sum(c.isdigit() ...))` over the
recognized texts (`test_gps_ocr.py` line 69). -/
def pyMaxByDigits : List String → String
  | [] => ""
  | t :: ts => ts.foldl maxStep t

/-- `test_gps_ocr.py` lines 61-69: recognize all three variants and keep
the text containing the most digits. -/
def best_text (ocr : OcrVariant → String) : String :=
  pyMaxByDigits (testVariantPlan.map ocr)

theorem foldl_maxStep_spec :
    ∀ (l : List String) (b : String),
      (l.foldl maxStep b = b ∨ l.foldl maxStep b ∈ l) ∧
      digitCount b ≤ digitCount (l.foldl maxStep b) ∧
      ∀ t ∈ l, digitCount t ≤ digitCount (l.foldl maxStep b) := by
  intro l
  induction l with
  | nil => intro b; simp
  | cons x xs ih =>
    intro b
    simp only [List.foldl_cons]
    obtain ⟨hmem, hb, hall⟩ := ih (maxStep b x)
    have hstep : maxStep b x = b ∨ maxStep b x = x := by
      unfold maxStep
      split
      · exact Or.inr rfl
      · exact Or.inl rfl
    have hbx : digitCount b ≤ digitCount (maxStep b x) ∧
        digitCount x ≤ digitCount (maxStep b x) := by
      unfold maxStep
      split
      · rename_i hlt
        exact ⟨le_of_lt hlt, le_refl _⟩
      · rename_i hge
        exact ⟨le_refl _, not_lt.mp hge⟩
    refine ⟨?_, le_trans hbx.1 hb, ?_⟩
    · rcases hmem with h | h
      · rw [h]
        rcases hstep with h2 | h2
        · exact Or.inl h2
        · exact Or.inr (by rw [h2]; exact List.mem_cons_self x xs)
      · exact Or.inr (List.mem_cons_of_mem x h)
    · intro t ht
      rcases List.mem_cons.mp ht with rfl | ht
      · exact le_trans hbx.2 hb
      · exact hall t ht

theorem pyMaxByDigits_spec (l : List String) (hl : l ≠ []) :
    pyMaxByDigits l ∈ l ∧ ∀ t ∈ l, digitCount t ≤ digitCount (pyMaxByDigits l) := by
  cases l with
  | nil => exact absurd rfl hl
  | cons x xs =>
    obtain ⟨hmem, hb, hall⟩ := foldl_maxStep_spec xs x
    have heq : pyMaxByDigits (x :: xs) = xs.foldl maxStep x := rfl
    rw [heq]
    constructor
    · rcases hmem with h | h
      · rw [h]; exact List.mem_cons_self x xs
      · exact List.mem_cons_of_mem x h
    · intro t ht
      rcases List.mem_cons.mp ht with rfl | ht
      · exact hb
      · exact hall t ht

/-- C1 counterexample: the pipeline's decoder (`extract_gps_from_frame`)
produces **one** binarized variant, not "at least three", and does not
select by digit count: with a capability whose plain-threshold text is
digit-free (`"xx"`) while the adaptive variant reads the full overlay,
the decoder falls back instead of parsing the digit-densest variant. -/
theorem C1_counterexample :
    ¬ 3 ≤ prodVariantPlan.length ∧
    extractGpsWithOcr
      (fun v => match v with
        | OcrVariant.adaptiveGaussian => some "40 KM/H N43.792879 W79.314193"
        | _ => some "xx") 0 = fallbackFix 0 ∧
    fallbackFix 0 ≠ (43.792879, -79.314193, 40) := by
  refine ⟨by decide, ?_, ?_⟩
  · show extract_gps_from_frame (some "xx") 0 = fallbackFix 0
    exact extract_of_none _ 0 (tryDecode_no_coord _
      (parseLat_eval_none _ (by decide)) (parseLon_eval_none _ (by decide)))
  · intro h
    have h1 := congrArg Prod.fst h
    rw [show (fallbackFix 0).1 = 43.79 from by norm_num [fallbackFix]] at h1
    norm_num at h1

/-- C1 amended: the pipeline decoder runs recognition once, on the single
plain-threshold variant (its result depends only on that variant's text);
the three-variant ensemble (plain, inverted, adaptive) with
greatest-digit-count selection is implemented only in the test utility
`extract_gps_from_frame_ocr`, whose selected text is one of the three
recognized texts and digit-count-maximal among them. -/
theorem C1_single_variant_amended :
    prodVariantPlan = [OcrVariant.binary] ∧
    (∀ (o1 o2 : OcrVariant → Option String) (n : ℕ),
      o1 OcrVariant.binary = o2 OcrVariant.binary →
      extractGpsWithOcr o1 n = extractGpsWithOcr o2 n) ∧
    testVariantPlan.length = 3 ∧
    (∀ ocr : OcrVariant → String,
      best_text ocr ∈ testVariantPlan.map ocr ∧
      ∀ t ∈ testVariantPlan.map ocr, digitCount t ≤ digitCount (best_text ocr)) := by
  refine ⟨rfl, ?_, rfl, ?_⟩
  · intro o1 o2 n h
    unfold extractGpsWithOcr
    rw [h]
  · intro ocr
    exact pyMaxByDigits_spec _ (by simp [testVariantPlan])

theorem C1_single_variant_amended_witness :
    extractGpsWithOcr (fun _ => none) 2 =
      extractGpsWithOcr (fun v => match v with
        | OcrVariant.binary => none
        | _ => some "9") 2 ∧
    best_text (fun _ => "7") ∈ testVariantPlan.map (fun _ => "7") :=
  ⟨C1_single_variant_amended.2.1 _ _ 2 rfl, (C1_single_variant_amended.2.2.2 _).1⟩

/-! ### The ROI patch extractor — `extract_roi_patch` (lines 134-169)

Frame geometry only: the crop rectangle arithmetic is exact; the pixel
content of `cv2.resize` is external, but its output size — and the fact
that it raises on an empty crop — is part of its contract, recorded in
`out`.  Python `//` on ints is floor division (`Int.fdiv`). -/

structure RoiPatch where
  crop_x1 : Int
  crop_y1 : Int
  crop_x2 : Int
  crop_y2 : Int
  /-- `(width, height)` of the returned patch: `cv2.resize(patch, (patch_size, patch_size))`,
  which raises (`none`) iff the clipped crop is empty. -/
  out : Option (ℕ × ℕ)
deriving DecidableEq

def extract_roi_patch (h w : ℕ) (bbox : Int × Int × Int × Int) (patch_size : ℕ) : RoiPatch :=
  let x1 := bbox.1
  let y1 := bbox.2.1
  let x2 := bbox.2.2.1
  let y2 := bbox.2.2.2
  let center_x := (x1 + x2).fdiv 2
  let center_y := (y1 + y2).fdiv 2
  let half_size := (max (x2 - x1) (y2 - y1)).fdiv 2
  let crop_x1 := max 0 (center_x - half_size)
  let crop_y1 := max 0 (center_y - half_size)
  let crop_x2 := min (w : Int) (center_x + half_size)
  let crop_y2 := min (h : Int) (center_y + half_size)
  { crop_x1 := crop_x1, crop_y1 := crop_y1, crop_x2 := crop_x2, crop_y2 := crop_y2,
    out := if crop_x1 < crop_x2 ∧ crop_y1 < crop_y2 then some (patch_size, patch_size) else none }

/-- C4 counterexample: for a `100×100` frame and bbox `(0,0,20,40)`, the
half-size is 20 and the center is `(10,20)`, so the crop x-interval is
`[max(0,-10), min(100,30)] = [0,30]` — not `[0,40]` as the claim states. -/
theorem C4_counterexample :
    extract_roi_patch 100 100 (0, 0, 20, 40) 256 =
      { crop_x1 := 0, crop_y1 := 0, crop_x2 := 30, crop_y2 := 40,
        out := some (256, 256) } ∧
    (extract_roi_patch 100 100 (0, 0, 20, 40) 256).crop_x2 ≠ 40 := by
  constructor <;> decide

/-- C4 amended: the extractor uses the bbox center `((x1+x2)//2, (y1+y2)//2)`
and half-size `max(width, height)//2` (floor-halved), clips the crop window
to the frame (`crop_x1, crop_y1 ≥ 0`, `crop_x2 ≤ w`, `crop_y2 ≤ h`,
unconditionally), and resizes — not pads — the nonempty clipped crop to
exactly `patchSize × patchSize`; for the `100×100` frame and bbox
`(0,0,20,40)` the clipped window is `x ∈ [0,30]`, `y ∈ [0,40]`.  (The
half-size is the floor of half the larger dimension; a bbox whose larger
dimension is `≤ 1` yields an empty crop on which `cv2.resize` raises,
hence the `2 ≤ max` hypothesis for the output-size part.) -/
theorem C4_roi_crop (h w : ℕ) (x1 y1 x2 y2 : Int) (patch_size : ℕ)
    (hw : 0 < w) (hh : 0 < h) (hx : x1 < x2) (hy : y1 < y2)
    (hx1 : 0 ≤ x1) (hx2 : x2 ≤ (w : Int)) (hy1 : 0 ≤ y1) (hy2 : y2 ≤ (h : Int))
    (hbig : 2 ≤ max (x2 - x1) (y2 - y1)) :
    (extract_roi_patch h w (x1, y1, x2, y2) patch_size).crop_x1 =
      max 0 ((x1 + x2).fdiv 2 - (max (x2 - x1) (y2 - y1)).fdiv 2) ∧
    (extract_roi_patch h w (x1, y1, x2, y2) patch_size).crop_x2 =
      min (w : Int) ((x1 + x2).fdiv 2 + (max (x2 - x1) (y2 - y1)).fdiv 2) ∧
    0 ≤ (extract_roi_patch h w (x1, y1, x2, y2) patch_size).crop_x1 ∧
    (extract_roi_patch h w (x1, y1, x2, y2) patch_size).crop_x2 ≤ (w : Int) ∧
    0 ≤ (extract_roi_patch h w (x1, y1, x2, y2) patch_size).crop_y1 ∧
    (extract_roi_patch h w (x1, y1, x2, y2) patch_size).crop_y2 ≤ (h : Int) ∧
    (extract_roi_patch h w (x1, y1, x2, y2) patch_size).crop_x1 <
      (extract_roi_patch h w (x1, y1, x2, y2) patch_size).crop_x2 ∧
    (extract_roi_patch h w (x1, y1, x2, y2) patch_size).crop_y1 <
      (extract_roi_patch h w (x1, y1, x2, y2) patch_size).crop_y2 ∧
    (extract_roi_patch h w (x1, y1, x2, y2) patch_size).out =
      some (patch_size, patch_size) := by
  have hfd : ∀ a : ℤ, a.fdiv 2 = a / 2 := fun a => Int.fdiv_eq_ediv a (by norm_num)
  have hcx1 : (extract_roi_patch h w (x1, y1, x2, y2) patch_size).crop_x1 =
      max 0 ((x1 + x2).fdiv 2 - (max (x2 - x1) (y2 - y1)).fdiv 2) := rfl
  have hcx2 : (extract_roi_patch h w (x1, y1, x2, y2) patch_size).crop_x2 =
      min (w : Int) ((x1 + x2).fdiv 2 + (max (x2 - x1) (y2 - y1)).fdiv 2) := rfl
  have hcy1 : (extract_roi_patch h w (x1, y1, x2, y2) patch_size).crop_y1 =
      max 0 ((y1 + y2).fdiv 2 - (max (x2 - x1) (y2 - y1)).fdiv 2) := rfl
  have hcy2 : (extract_roi_patch h w (x1, y1, x2, y2) patch_size).crop_y2 =
      min (h : Int) ((y1 + y2).fdiv 2 + (max (x2 - x1) (y2 - y1)).fdiv 2) := rfl
  have hxlt : max 0 ((x1 + x2).fdiv 2 - (max (x2 - x1) (y2 - y1)).fdiv 2) <
      min (w : Int) ((x1 + x2).fdiv 2 + (max (x2 - x1) (y2 - y1)).fdiv 2) := by
    simp only [hfd]
    omega
  have hylt : max 0 ((y1 + y2).fdiv 2 - (max (x2 - x1) (y2 - y1)).fdiv 2) <
      min (h : Int) ((y1 + y2).fdiv 2 + (max (x2 - x1) (y2 - y1)).fdiv 2) := by
    simp only [hfd]
    omega
  refine ⟨hcx1, hcx2, ?_, ?_, ?_, ?_, ?_, ?_, ?_⟩
  · rw [hcx1]; exact le_max_left 0 _
  · rw [hcx2]; exact min_le_left _ _
  · rw [hcy1]; exact le_max_left 0 _
  · rw [hcy2]; exact min_le_left _ _
  · rw [hcx1, hcx2]; exact hxlt
  · rw [hcy1, hcy2]; exact hylt
  · show (if _ ∧ _ then _ else _) = _
    rw [if_pos ⟨hxlt, hylt⟩]

theorem C4_roi_crop_witness :
    0 ≤ (extract_roi_patch 100 100 (0, 0, 20, 40) 256).crop_x1 ∧
    (extract_roi_patch 100 100 (0, 0, 20, 40) 256).crop_x1 <
      (extract_roi_patch 100 100 (0, 0, 20, 40) 256).crop_x2 ∧
    (extract_roi_patch 100 100 (0, 0, 20, 40) 256).out = some (256, 256) :=
  have h := C4_roi_crop 100 100 0 0 20 40 256 (by norm_num) (by norm_num)
    (by norm_num) (by norm_num) (by norm_num) (by norm_num) (by norm_num)
    (by norm_num) (by norm_num)
  ⟨h.2.2.1, h.2.2.2.2.2.2.1, h.2.2.2.2.2.2.2.2⟩

/-! ### Patch filenames — `f"frame_{frame_count:06d}_det_{detection_count:04d}.jpg"`

Line 260 of `detect_and_extract.py`.  Python `{n:06d}` zero-pads to at
least the given width and keeps all digits of larger numbers. -/

/-- ASCII char of one decimal digit. -/
def digitChar (d : ℕ) : Char := Char.ofNat (48 + d)

/-- Decimal digit chars of `n`, most significant first (`str(n)`). -/
def decDigits (n : ℕ) : List Char := (Nat.digits 10 n).reverse.map digitChar

/-- Python `{n:0wd}`. -/
def padNat (w n : ℕ) : List Char :=
  List.replicate (w - (decDigits n).length) '0' ++ decDigits n

/-- The patch filename of line 260. -/
def mkPatchName (frame_count detection_count : ℕ) : List Char :=
  "frame_".data ++ padNat 6 frame_count ++ "_det_".data ++
    padNat 4 detection_count ++ ".jpg".data

theorem digitChar_toNat (d : ℕ) (hd : d < 10) : (digitChar d).toNat = 48 + d := by
  interval_cases d <;> decide

theorem padNat_digits (w n : ℕ) : ∀ c ∈ padNat w n, isDigit09 c = true := by
  intro c hc
  rcases List.mem_append.mp hc with hc | hc
  · rw [List.eq_of_mem_replicate hc]
    decide
  · obtain ⟨d, hd, rfl⟩ := List.mem_map.mp hc
    rw [List.mem_reverse] at hd
    have hlt : d < 10 := Nat.digits_lt_base (by norm_num) hd
    simp only [isDigit09, digitChar_toNat d hlt, Bool.and_eq_true, decide_eq_true_eq]
    omega

theorem natOfDigits_rev_map (L : List ℕ) (hL : ∀ d ∈ L, d < 10) (acc : ℕ) :
    List.foldl (fun a c => 10 * a + (c.toNat - 48)) acc (L.reverse.map digitChar) =
      acc * 10 ^ L.length + Nat.ofDigits 10 L := by
  induction L generalizing acc with
  | nil => simp [Nat.ofDigits_nil]
  | cons d T ih =>
    have hd : d < 10 := hL d (List.mem_cons_self d T)
    have hT : ∀ x ∈ T, x < 10 := fun x hx => hL x (List.mem_cons_of_mem d hx)
    simp only [List.reverse_cons, List.map_append, List.map_cons, List.map_nil,
      List.foldl_append, List.foldl_cons, List.foldl_nil]
    rw [ih hT acc, digitChar_toNat d hd, Nat.ofDigits_cons]
    simp only [List.length_cons]
    ring_nf
    omega

theorem natOfDigits_padNat (w n : ℕ) : natOfDigits (padNat w n) = n := by
  unfold natOfDigits padNat
  rw [List.foldl_append]
  have hz : ∀ k, List.foldl (fun a c => 10 * a + (c.toNat - 48)) 0
      (List.replicate k '0') = 0 := by
    intro k
    induction k with
    | zero => rfl
    | succ k ih => simpa [List.replicate_succ] using ih
  rw [hz]
  unfold decDigits
  rw [natOfDigits_rev_map (Nat.digits 10 n)
    (fun d hd => Nat.digits_lt_base (by norm_num) hd) 0]
  simp [Nat.ofDigits_digits]

theorem padNat_inj (w a b : ℕ) (h : padNat w a = padNat w b) : a = b := by
  have := congrArg natOfDigits h
  rwa [natOfDigits_padNat, natOfDigits_padNat] at this

theorem takeWhile_all_append (p : Char → Bool) :
    ∀ (a : List Char), (∀ c ∈ a, p c = true) → ∀ (c0 : Char), p c0 = false →
      ∀ (x : List Char), (a ++ c0 :: x).takeWhile p = a ∧
        (a ++ c0 :: x).dropWhile p = c0 :: x := by
  intro a
  induction a with
  | nil =>
    intro _ c0 hc x
    simp [List.takeWhile_cons, List.dropWhile_cons, hc]
  | cons d t ih =>
    intro ha c0 hc x
    have hd : p d = true := ha d (List.mem_cons_self d t)
    have ht : ∀ c ∈ t, p c = true := fun c hct => ha c (List.mem_cons_of_mem d hct)
    obtain ⟨h1, h2⟩ := ih ht c0 hc x
    simp [List.takeWhile_cons, List.dropWhile_cons, hd, h1, h2]

theorem digits_sep_split (a b x y : List Char) (sep : Char)
    (ha : ∀ c ∈ a, isDigit09 c = true) (hb : ∀ c ∈ b, isDigit09 c = true)
    (hsep : isDigit09 sep = false)
    (h : a ++ sep :: x = b ++ sep :: y) : a = b ∧ x = y := by
  have hta := takeWhile_all_append isDigit09 a ha sep hsep x
  have htb := takeWhile_all_append isDigit09 b hb sep hsep y
  have h1 : a = b := by
    rw [← hta.1, ← htb.1, h]
  have h2 : sep :: x = sep :: y := by
    rw [← hta.2, ← htb.2, h]
  refine ⟨h1, ?_⟩
  injection h2

theorem mkPatchName_inj (a1 b1 a2 b2 : ℕ)
    (h : mkPatchName a1 b1 = mkPatchName a2 b2) : a1 = a2 ∧ b1 = b2 := by
  unfold mkPatchName at h
  simp only [List.append_assoc] at h
  have h2 := List.append_cancel_left h
  have hsh1 : ∀ (L : List Char), ("_det_".data : List Char) ++ L = '_' :: ("det_".data ++ L) :=
    fun L => rfl
  rw [hsh1, hsh1] at h2
  obtain ⟨hp6, hrest⟩ := digits_sep_split _ _ _ _ '_'
    (padNat_digits 6 a1) (padNat_digits 6 a2) (by decide) h2
  have h3 := List.append_cancel_left hrest
  have hsh2 : ∀ (L : List Char), (".jpg".data : List Char) ++ L = '.' :: ("jpg".data ++ L) :=
    fun L => rfl
  rw [show (padNat 4 b1 ++ ".jpg".data : List Char) = padNat 4 b1 ++ '.' :: "jpg".data from rfl,
    show (padNat 4 b2 ++ ".jpg".data : List Char) = padNat 4 b2 ++ '.' :: "jpg".data from rfl] at h3
  obtain ⟨hp4, _⟩ := digits_sep_split _ _ _ _ '.'
    (padNat_digits 4 b1) (padNat_digits 4 b2) (by decide) h3
  exact ⟨padNat_inj 6 a1 a2 hp6, padNat_inj 4 b1 b2 hp4⟩

/-! ### The pipeline loop — `process_video` (lines 171-321)

The video is the list of frames `cap.read()` yields; each frame carries
its external inputs: the OCR capability's text for its overlay, the YOLO
inference wall time, and the adapter's raw detections.  File writes are
trace events; `failAt = some k` makes the `k`-th write of the run raise
`IOError` (propagated, as in the source, which has no try/except around
the loop).  `cv2`'s patch geometry is covered by `extract_roi_patch`
above; the loop records the write events by frame index and detection
ordinal. -/

/-- One raw detection from the YOLO adapter (`box.xyxy`, `box.conf`,
class name), lines 244-248. -/
structure RawDet where
  x1 : Int
  y1 : Int
  x2 : Int
  y2 : Int
  conf : ℚ
  className : String
deriving DecidableEq

/-- External inputs of the loop body for one frame. -/
structure FrameData where
  ocrText : Option String
  infTime : ℚ
  dets : List RawDet
deriving DecidableEq

/-- One detection record: the CSV row fields of lines 264-276 (exact
rational values; fixed-decimal formatting is presentation), the patch
filename, and the run-global detection ordinal used in it. -/
structure Record where
  frame_number : ℕ
  timestamp_sec : ℚ
  u : ℚ
  v : Int
  confidence : ℚ
  className : String
  vehicle_lat : ℚ
  vehicle_lon : ℚ
  heading : ℚ
  ordinal : ℕ
  filename : List Char
deriving DecidableEq

/-- A file-system write performed by the loop: the patch image
(`cv2.imwrite`, line 262) or the CSV row (`csv_writer.writerow`,
line 266), identified by frame index and detection ordinal. -/
inductive WriteOp where
  | patch (frame_number detection_count : ℕ)
  | row (frame_number detection_count : ℕ)
deriving DecidableEq

/-- The `[patch, row]` writes a record produces, in source order
(line 262 before line 266). -/
def pairOf (r : Record) : List WriteOp :=
  [WriteOp.patch r.frame_number r.ordinal, WriteOp.row r.frame_number r.ordinal]

/-- State of one `process_video` run: the local counters of lines
215-217, the instance's `self.inference_times` (initialized from the
pipeline object, appended at line 238), the emitted records, the ordered
write trace, and the indices of the frames that passed the sampling check
(the frames the body processes). -/
structure LoopState where
  frame_count : ℕ
  processed_count : ℕ
  detection_count : ℕ
  inference_times : List ℚ
  records : List Record
  trace : List WriteOp
  processed : List ℕ
deriving DecidableEq

/-- One write to the sink; `failAt = some k` raises `IOError` on the
`k`-th write of the run (0-based), carrying the state at the raise. -/
def tryWrite (failAt : Option ℕ) (st : LoopState) (op : WriteOp) :
    Except LoopState LoopState :=
  if failAt = some st.trace.length then .error st
  else .ok { st with trace := st.trace ++ [op] }

/-- The record assembled at lines 254-276: bottom-center pixel
`u = (x1+x2)/2`, `v = y2`, timestamp `frame_count / video_fps`, the
GeoFix of the frame, and the patch filename of line 260. -/
def mkRecord (video_fps : ℕ) (fc dc : ℕ) (gps : ℚ × ℚ × ℚ) (d : RawDet) : Record :=
  { frame_number := fc
    timestamp_sec := (fc : ℚ) / (video_fps : ℚ)
    u := ((d.x1 : ℚ) + (d.x2 : ℚ)) / 2
    v := d.y2
    confidence := d.conf
    className := d.className
    vehicle_lat := gps.1
    vehicle_lon := gps.2.1
    heading := gps.2.2
    ordinal := dc
    filename := mkPatchName fc dc }

/-- The detection loop of lines 241-278 for one frame: keep detections
whose class is in `target_classes` (others skipped silently), write the
patch, write the CSV row, append the record, increment
`detection_count`.  A raised `IOError` propagates immediately. -/
def emitLoop (failAt : Option ℕ) (video_fps : ℕ) (target : List String)
    (gps : ℚ × ℚ × ℚ) (fc : ℕ) :
    List RawDet → LoopState → Except LoopState LoopState
  | [], st => .ok st
  | d :: ds, st =>
    if d.className ∈ target then
      match tryWrite failAt st (WriteOp.patch fc st.detection_count) with
      | .error e => .error e
      | .ok st1 =>
        match tryWrite failAt st1 (WriteOp.row fc st.detection_count) with
        | .error e => .error e
        | .ok st2 =>
          emitLoop failAt video_fps target gps fc ds
            { st2 with
              records := st2.records ++ [mkRecord video_fps fc st.detection_count gps d],
              detection_count := st.detection_count + 1 }
    else emitLoop failAt video_fps target gps fc ds st

/-- The while-loop of lines 221-287: read the next frame; if
`frame_count % frame_interval != 0`, only advance `frame_count`;
otherwise decode the GeoFix, append the inference time, run the detection
loop, then advance `processed_count` and `frame_count`. -/
def frameLoop (failAt : Option ℕ) (video_fps frame_itv : ℕ) (target : List String) :
    List FrameData → LoopState → Except LoopState LoopState
  | [], st => .ok st
  | f :: fs, st =>
    if st.frame_count % frame_itv = 0 then
      let gps := extract_gps_from_frame f.ocrText st.frame_count
      let st0 := { st with
        inference_times := st.inference_times ++ [f.infTime],
        processed := st.processed ++ [st.frame_count] }
      match emitLoop failAt video_fps target gps st.frame_count f.dets st0 with
      | .error e => .error e
      | .ok st1 =>
        frameLoop failAt video_fps frame_itv target fs
          { st1 with frame_count := st1.frame_count + 1,
                     processed_count := st1.processed_count + 1 }
    else
      frameLoop failAt video_fps frame_itv target fs
        { st with frame_count := st.frame_count + 1 }

/-- The `self` fields set in `__init__` (lines 50-53); `total_frames`
and `total_detections` are never updated afterwards. -/
structure PerceptionPipeline where
  total_frames : ℕ
  total_detections : ℕ
  inference_times : List ℚ
deriving DecidableEq

def initPipeline : PerceptionPipeline :=
  { total_frames := 0, total_detections := 0, inference_times := [] }

/-- `frame_interval = max(1, video_fps // sample_fps)` (line 198). -/
def frame_interval (video_fps sample_fps : ℕ) : ℕ :=
  max 1 (video_fps / sample_fps)

/-- The statistics of lines 297-306 (the wall-clock fields
`elapsed_time` / `avg_fps` are not modelled). -/
structure Stats where
  total_frames : ℕ
  processed_frames : ℕ
  total_detections : ℕ
  avg_inference_ms : ℚ
deriving DecidableEq

/-- `np.mean(self.inference_times) if self.inference_times else 0`
times 1000 (lines 294, 303). -/
def avgInferenceMs (l : List ℚ) : ℚ :=
  (if l.isEmpty then 0 else l.sum / (l.length : ℚ)) * 1000

/-- `process_video` (lines 171-321): the local counters start at zero,
the instance accumulator `self.inference_times` is **not** reset; on
success the mutated pipeline object, the stats and the final loop state
are returned; a raised `IOError` propagates out (`Except.error`, carrying
the state at the raise — the CSV file was opened once in `'w'` mode at
line 207 and the already-performed writes of the trace are retained). -/
def process_video (pp : PerceptionPipeline) (frames : List FrameData)
    (video_fps sample_fps : ℕ) (target : List String) (failAt : Option ℕ) :
    Except LoopState (PerceptionPipeline × Stats × LoopState) :=
  let st0 : LoopState :=
    { frame_count := 0, processed_count := 0, detection_count := 0,
      inference_times := pp.inference_times, records := [], trace := [],
      processed := [] }
  match frameLoop failAt video_fps (frame_interval video_fps sample_fps) target frames st0 with
  | .error e => .error e
  | .ok st =>
    .ok ({ pp with inference_times := st.inference_times },
      { total_frames := st.frame_count, processed_frames := st.processed_count,
        total_detections := st.detection_count,
        avg_inference_ms := avgInferenceMs st.inference_times }, st)

/-- The loop state at the end of a run, whether it completed or raised. -/
def finalState (r : Except LoopState (PerceptionPipeline × Stats × LoopState)) : LoopState :=
  match r with
  | .error e => e
  | .ok (_, _, st) => st

/-! #### Pure denotations of the loop, for the characterization lemmas -/

/-- Records emitted for one frame's detections, given the ordinal counter. -/
def emitRecs (video_fps : ℕ) (target : List String) (gps : ℚ × ℚ × ℚ)
    (fc : ℕ) : ℕ → List RawDet → List Record
  | _, [] => []
  | dc, d :: ds =>
    if d.className ∈ target then
      mkRecord video_fps fc dc gps d :: emitRecs video_fps target gps fc (dc + 1) ds
    else emitRecs video_fps target gps fc dc ds

/-- Records emitted across the whole run. -/
def runRecs (video_fps frame_itv : ℕ) (target : List String) :
    List FrameData → ℕ → ℕ → List Record
  | [], _, _ => []
  | f :: fs, fc, dc =>
    if fc % frame_itv = 0 then
      let rs := emitRecs video_fps target (extract_gps_from_frame f.ocrText fc) fc dc f.dets
      rs ++ runRecs video_fps frame_itv target fs (fc + 1) (dc + rs.length)
    else runRecs video_fps frame_itv target fs (fc + 1) dc

/-- Inference times appended across the run: one per processed frame. -/
def frameTimes (frame_itv : ℕ) : List FrameData → ℕ → List ℚ
  | [], _ => []
  | f :: fs, fc =>
    if fc % frame_itv = 0 then f.infTime :: frameTimes frame_itv fs (fc + 1)
    else frameTimes frame_itv fs (fc + 1)

theorem tryWrite_none (st : LoopState) (op : WriteOp) :
    tryWrite none st op = .ok { st with trace := st.trace ++ [op] } := rfl

theorem emitLoop_none_spec (v : ℕ) (t : List String) (g : ℚ × ℚ × ℚ) (fc : ℕ) :
    ∀ (ds : List RawDet) (st : LoopState), ∃ st',
      emitLoop none v t g fc ds st = .ok st' ∧
      st'.frame_count = st.frame_count ∧
      st'.processed_count = st.processed_count ∧
      st'.inference_times = st.inference_times ∧
      st'.processed = st.processed ∧
      st'.detection_count = st.detection_count +
        (emitRecs v t g fc st.detection_count ds).length ∧
      st'.records = st.records ++ emitRecs v t g fc st.detection_count ds ∧
      st'.trace = st.trace ++
        (emitRecs v t g fc st.detection_count ds).flatMap pairOf := by
  intro ds
  induction ds with
  | nil =>
    intro st
    exact ⟨st, rfl, rfl, rfl, rfl, rfl, by simp [emitRecs], by simp [emitRecs],
      by simp [emitRecs]⟩
  | cons d ds ih =>
    intro st
    by_cases hcl : d.className ∈ t
    · obtain ⟨st', h1, h2, h3, h4, h5, h6, h7, h8⟩ :=
        ih { st with
          trace := (st.trace ++ [WriteOp.patch fc st.detection_count]) ++
            [WriteOp.row fc st.detection_count],
          records := st.records ++ [mkRecord v fc st.detection_count g d],
          detection_count := st.detection_count + 1 }
      refine ⟨st', ?_, by simpa using h2, by simpa using h3, by simpa using h4,
        by simpa using h5, ?_, ?_, ?_⟩
      · show emitLoop none v t g fc (d :: ds) st = .ok st'
        simp only [emitLoop, hcl, if_true, tryWrite_none]
        exact h1
      · rw [h6]
        simp only [emitRecs, hcl, if_true, List.length_cons]
        omega
      · rw [h7]
        simp only [emitRecs, hcl, if_true]
        simp
      · rw [h8]
        simp only [emitRecs, hcl, if_true, List.flatMap_cons, pairOf, mkRecord]
        simp
    · obtain ⟨st', h1, h2, h3, h4, h5, h6, h7, h8⟩ := ih st
      refine ⟨st', ?_, h2, h3, h4, h5, ?_, ?_, ?_⟩
      · show emitLoop none v t g fc (d :: ds) st = .ok st'
        simp only [emitLoop, hcl, if_false]
        exact h1
      · rw [h6]
        simp [emitRecs, hcl]
      · rw [h7]
        simp [emitRecs, hcl]
      · rw [h8]
        simp [emitRecs, hcl]

theorem frameLoop_none_spec (v k : ℕ) (t : List String) :
    ∀ (fs : List FrameData) (st : LoopState), ∃ st',
      frameLoop none v k t fs st = .ok st' ∧
      st'.frame_count = st.frame_count + fs.length ∧
      st'.processed_count = st.processed_count +
        ((List.range' st.frame_count fs.length).filter (fun i => decide (i % k = 0))).length ∧
      st'.processed = st.processed ++
        (List.range' st.frame_count fs.length).filter (fun i => decide (i % k = 0)) ∧
      st'.inference_times = st.inference_times ++ frameTimes k fs st.frame_count ∧
      st'.detection_count = st.detection_count +
        (runRecs v k t fs st.frame_count st.detection_count).length ∧
      st'.records = st.records ++ runRecs v k t fs st.frame_count st.detection_count ∧
      st'.trace = st.trace ++
        (runRecs v k t fs st.frame_count st.detection_count).flatMap pairOf := by
  intro fs
  induction fs with
  | nil =>
    intro st
    exact ⟨st, rfl, rfl, by simp, by simp, by simp [frameTimes],
      by simp [runRecs], by simp [runRecs], by simp [runRecs]⟩
  | cons f fs ih =>
    intro st
    by_cases hs : st.frame_count % k = 0
    · obtain ⟨stE, e1, e2, e3, e4, e5, e6, e7, e8⟩ :=
        emitLoop_none_spec v t (extract_gps_from_frame f.ocrText st.frame_count)
          st.frame_count f.dets
          { st with
            inference_times := st.inference_times ++ [f.infTime],
            processed := st.processed ++ [st.frame_count] }
      obtain ⟨st', h1, h2, h3, h4, h5, h6, h7, h8⟩ :=
        ih { stE with frame_count := stE.frame_count + 1,
                      processed_count := stE.processed_count + 1 }
      have hrs : runRecs v k t (f :: fs) st.frame_count st.detection_count =
          emitRecs v t (extract_gps_from_frame f.ocrText st.frame_count)
            st.frame_count st.detection_count f.dets ++
          runRecs v k t fs (st.frame_count + 1) (st.detection_count +
            (emitRecs v t (extract_gps_from_frame f.ocrText st.frame_count)
              st.frame_count st.detection_count f.dets).length) := by
        simp [runRecs, hs]
      have hrange : (List.range' st.frame_count (f :: fs).length).filter
          (fun i => decide (i % k = 0)) =
          st.frame_count :: (List.range' (st.frame_count + 1) fs.length).filter
            (fun i => decide (i % k = 0)) := by
        rw [List.length_cons, List.range'_succ, List.filter_cons]
        simp [hs]
      have htimes : frameTimes k (f :: fs) st.frame_count =
          f.infTime :: frameTimes k fs (st.frame_count + 1) := by
        simp [frameTimes, hs]
      dsimp only at e2 e3 e4 e5 e6 e7 e8 h2 h3 h4 h5 h6 h7 h8
      refine ⟨st', ?_, ?_, ?_, ?_, ?_, ?_, ?_, ?_⟩
      · show frameLoop none v k t (f :: fs) st = .ok st'
        simp only [frameLoop, hs, if_true, e1]
        exact h1
      · rw [h2, e2]
        simp only [List.length_cons]
        omega
      · rw [h3, e3, e2, hrange]
        simp only [List.length_cons]
        omega
      · rw [h4, e5, e2, hrange]
        simp
      · rw [h5, e4, e2, htimes]
        simp
      · rw [h6, e6, e2, hrs]
        simp only [List.length_append]
        omega
      · rw [h7, e7, e6, e2, hrs]
        simp
      · rw [h8, e8, e6, e2, hrs]
        simp [List.flatMap_append]
    · obtain ⟨st', h1, h2, h3, h4, h5, h6, h7, h8⟩ :=
        ih { st with frame_count := st.frame_count + 1 }
      dsimp only at h2 h3 h4 h5 h6 h7 h8
      have hrs : runRecs v k t (f :: fs) st.frame_count st.detection_count =
          runRecs v k t fs (st.frame_count + 1) st.detection_count := by
        simp [runRecs, hs]
      have hrange : (List.range' st.frame_count (f :: fs).length).filter
          (fun i => decide (i % k = 0)) =
          (List.range' (st.frame_count + 1) fs.length).filter
            (fun i => decide (i % k = 0)) := by
        rw [List.length_cons, List.range'_succ, List.filter_cons]
        simp [hs]
      have htimes : frameTimes k (f :: fs) st.frame_count =
          frameTimes k fs (st.frame_count + 1) := by
        simp [frameTimes, hs]
      refine ⟨st', ?_, ?_, ?_, ?_, ?_, ?_, ?_, ?_⟩
      · show frameLoop none v k t (f :: fs) st = .ok st'
        simp only [frameLoop, hs, if_false]
        exact h1
      · rw [h2]
        simp only [List.length_cons]
        omega
      · rw [h3, hrange]
      · rw [h4, hrange]
      · rw [h5, htimes]
      · rw [h6, hrs]
      · rw [h7, hrs]
      · rw [h8, hrs]

theorem process_video_none_spec (pp : PerceptionPipeline) (frames : List FrameData)
    (v sfps : ℕ) (target : List String) :
    ∃ pp' stats st,
      process_video pp frames v sfps target none = .ok (pp', stats, st) ∧
      pp'.inference_times = pp.inference_times ++
        frameTimes (frame_interval v sfps) frames 0 ∧
      pp'.total_frames = pp.total_frames ∧
      pp'.total_detections = pp.total_detections ∧
      st.inference_times = pp.inference_times ++
        frameTimes (frame_interval v sfps) frames 0 ∧
      stats.total_frames = frames.length ∧
      stats.processed_frames = ((List.range frames.length).filter
        (fun i => decide (i % frame_interval v sfps = 0))).length ∧
      stats.total_detections =
        (runRecs v (frame_interval v sfps) target frames 0 0).length ∧
      stats.avg_inference_ms = avgInferenceMs (pp.inference_times ++
        frameTimes (frame_interval v sfps) frames 0) ∧
      st.records = runRecs v (frame_interval v sfps) target frames 0 0 ∧
      st.trace = (runRecs v (frame_interval v sfps) target frames 0 0).flatMap pairOf ∧
      st.processed = (List.range frames.length).filter
        (fun i => decide (i % frame_interval v sfps = 0)) := by
  obtain ⟨st', h1, h2, h3, h4, h5, h6, h7, h8⟩ :=
    frameLoop_none_spec v (frame_interval v sfps) target frames
      { frame_count := 0, processed_count := 0, detection_count := 0,
        inference_times := pp.inference_times, records := [], trace := [],
        processed := [] }
  refine ⟨{ pp with inference_times := st'.inference_times },
    { total_frames := st'.frame_count, processed_frames := st'.processed_count,
      total_detections := st'.detection_count,
      avg_inference_ms := avgInferenceMs st'.inference_times }, st',
    ?_, ?_, rfl, rfl, ?_, ?_, ?_, ?_, ?_, ?_, ?_, ?_⟩
  · show process_video pp frames v sfps target none = _
    simp only [process_video, h1]
  · simpa using h5
  · simpa using h5
  · simpa [List.range_eq_range'] using h2
  · simpa [List.range_eq_range'] using h3
  · simpa using h6
  · rw [show Stats.avg_inference_ms _ = avgInferenceMs st'.inference_times from rfl]
    rw [h5]
  · simpa using h7
  · simpa using h8
  · simpa [List.range_eq_range'] using h4

theorem range'_split (m : ℕ) : ∀ (s n : ℕ),
    List.range' s (m + n) = List.range' s m ++ List.range' (s + m) n := by
  induction m with
  | zero => intro s n; simp
  | succ m ih =>
    intro s n
    rw [show m + 1 + n = (m + n) + 1 from by omega, List.range'_succ, ih (s + 1) n,
      List.range'_succ]
    simp only [List.cons_append]
    rw [show s + 1 + m = s + (m + 1) from by omega]

theorem emitRecs_map_ordinal (v : ℕ) (t : List String) (g : ℚ × ℚ × ℚ) (fc : ℕ) :
    ∀ (ds : List RawDet) (dc : ℕ),
      (emitRecs v t g fc dc ds).map Record.ordinal =
        List.range' dc (emitRecs v t g fc dc ds).length ∧
      ∀ r ∈ emitRecs v t g fc dc ds,
        r.frame_number = fc ∧ r.filename = mkPatchName fc r.ordinal := by
  intro ds
  induction ds with
  | nil => intro dc; simp [emitRecs]
  | cons d ds ih =>
    intro dc
    by_cases hcl : d.className ∈ t
    · obtain ⟨ihm, ihr⟩ := ih (dc + 1)
      constructor
      · simp only [emitRecs, hcl, if_true, List.map_cons, List.length_cons, ihm]
        rw [show (mkRecord v fc dc g d).ordinal = dc from rfl, List.range'_succ]
      · intro r hr
        simp only [emitRecs, hcl, if_true, List.mem_cons] at hr
        rcases hr with rfl | hr
        · exact ⟨rfl, rfl⟩
        · exact ihr r hr
    · simp only [emitRecs, hcl, if_false]
      exact ih dc

theorem runRecs_map_ordinal (v k : ℕ) (t : List String) :
    ∀ (fs : List FrameData) (fc dc : ℕ),
      (runRecs v k t fs fc dc).map Record.ordinal =
        List.range' dc (runRecs v k t fs fc dc).length ∧
      ∀ r ∈ runRecs v k t fs fc dc,
        r.filename = mkPatchName r.frame_number r.ordinal := by
  intro fs
  induction fs with
  | nil => intro fc dc; simp [runRecs]
  | cons f fs ih =>
    intro fc dc
    by_cases hs : fc % k = 0
    · have hrw : runRecs v k t (f :: fs) fc dc =
          emitRecs v t (extract_gps_from_frame f.ocrText fc) fc dc f.dets ++
          runRecs v k t fs (fc + 1) (dc +
            (emitRecs v t (extract_gps_from_frame f.ocrText fc) fc dc f.dets).length) := by
        simp [runRecs, hs]
      obtain ⟨em, er⟩ := emitRecs_map_ordinal v t
        (extract_gps_from_frame f.ocrText fc) fc f.dets dc
      obtain ⟨rm, rr⟩ := ih (fc + 1) (dc +
        (emitRecs v t (extract_gps_from_frame f.ocrText fc) fc dc f.dets).length)
      constructor
      · rw [hrw, List.map_append, em, rm, List.length_append, range'_split]
      · intro r hr
        rw [hrw] at hr
        rcases List.mem_append.mp hr with hr | hr
        · obtain ⟨hfn, hfile⟩ := er r hr
          rw [hfile, hfn]
        · exact rr r hr
    · have hrw : runRecs v k t (f :: fs) fc dc = runRecs v k t fs (fc + 1) dc := by
        simp [runRecs, hs]
      rw [hrw]
      exact ih (fc + 1) dc

/-- C10: within a single `process_video` run, the detection ordinal in the
patch filenames is one run-global counter: it starts at 0, increments
once per emitted record across all frames (never reset per frame), so the
`i`-th emitted record carries ordinal `i` (= the number of records
emitted before it) and all patch filenames
`frame_{frameIndex:06d}_det_{ordinal:04d}.jpg` of the run are distinct. -/
theorem C10_run_global_ordinal (pp : PerceptionPipeline) (frames : List FrameData)
    (v sfps : ℕ) (target : List String) (_hv : 1 ≤ v)
    (pp' : PerceptionPipeline) (stats : Stats) (st : LoopState)
    (hrun : process_video pp frames v sfps target none = .ok (pp', stats, st)) :
    st.records.map Record.ordinal = List.range st.records.length ∧
    (∀ r ∈ st.records, r.filename = mkPatchName r.frame_number r.ordinal) ∧
    (st.records.map Record.filename).Nodup := by
  obtain ⟨pp2, stats2, st2, h1, _, _, _, _, _, _, _, _, hrecs, _, _⟩ :=
    process_video_none_spec pp frames v sfps target
  rw [hrun] at h1
  simp only [Except.ok.injEq, Prod.mk.injEq] at h1
  obtain ⟨hpp, hstats, hst⟩ := h1
  subst hst
  obtain ⟨hmap, hfile⟩ :=
    runRecs_map_ordinal v (frame_interval v sfps) target frames 0 0
  rw [← hrecs] at hmap hfile
  have hord : st.records.map Record.ordinal = List.range st.records.length := by
    rw [hmap, List.range_eq_range']
  refine ⟨hord, hfile, ?_⟩
  have hnod : (st.records.map Record.ordinal).Nodup := by
    rw [hord]
    exact List.nodup_range _
  have hpair : st.records.Pairwise (fun a b => a.ordinal ≠ b.ordinal) :=
    List.pairwise_map.mp hnod
  refine List.pairwise_map.mpr (hpair.imp_of_mem ?_)
  intro a b ha hb hne heq
  rw [hfile a ha, hfile b hb] at heq
  exact hne (mkPatchName_inj _ _ _ _ heq).2

theorem C10_run_global_ordinal_witness :
    ∃ pp' stats st,
      process_video initPipeline
        [⟨none, 1, [⟨0, 0, 8, 8, 1, "stop sign"⟩, ⟨1, 1, 9, 9, 1, "stop sign"⟩]⟩]
        1 1 ["stop sign", "traffic light"] none = .ok (pp', stats, st) ∧
      st.records.map Record.ordinal = List.range st.records.length ∧
      (st.records.map Record.filename).Nodup := by
  obtain ⟨pp', stats, st, h1, -, -, -, -, -, -, -, -, -, -, -⟩ :=
    process_video_none_spec initPipeline
      [⟨none, 1, [⟨0, 0, 8, 8, 1, "stop sign"⟩, ⟨1, 1, 9, 9, 1, "stop sign"⟩]⟩]
      1 1 ["stop sign", "traffic light"]
  have h := C10_run_global_ordinal initPipeline _ 1 1 _ (by norm_num) pp' stats st h1
  exact ⟨pp', stats, st, h1, h.1, h.2.2⟩

/-- C3: for every stream, native rate `rate ≥ 1` (the source truncates
`cap.get(CAP_PROP_FPS)` with `int(...)` = `⌊rate⌋` for nonnegative rates)
and integer `sampleFps ≥ 1`, the run uses
`frameInterval = max(1, ⌊rate⌋ // sampleFps) = max(1, ⌊rate / sampleFps⌋)`
and processes exactly the frames whose index is a multiple of the
interval, in increasing order; for `rate = 30, sampleFps = 1` the
interval is 30 (indices 0, 30, 60, …), and for `sampleFps ≥ rate` every
frame is processed (`frameInterval = 1`). -/
theorem C3_sampling_law (pp : PerceptionPipeline) (frames : List FrameData)
    (rate : ℚ) (sfps : ℕ) (target : List String)
    (hr : 1 ≤ rate) (hs : 1 ≤ sfps)
    (pp' : PerceptionPipeline) (stats : Stats) (st : LoopState)
    (hrun : process_video pp frames ⌊rate⌋₊ sfps target none = .ok (pp', stats, st)) :
    frame_interval ⌊rate⌋₊ sfps = max 1 ⌊rate / (sfps : ℚ)⌋₊ ∧
    (∀ i, i ∈ st.processed ↔
      i < frames.length ∧ i % frame_interval ⌊rate⌋₊ sfps = 0) ∧
    st.processed.Pairwise (· < ·) ∧
    (rate = 30 → frame_interval ⌊rate⌋₊ 1 = 30) ∧
    (rate ≤ (sfps : ℚ) → frame_interval ⌊rate⌋₊ sfps = 1 ∧
      st.processed = List.range frames.length) := by
  obtain ⟨pp2, stats2, st2, h1, _, _, _, _, _, _, _, _, _, _, hproc⟩ :=
    process_video_none_spec pp frames ⌊rate⌋₊ sfps target
  rw [hrun] at h1
  simp only [Except.ok.injEq, Prod.mk.injEq] at h1
  obtain ⟨hpp, hstats, hst⟩ := h1
  subst hst
  refine ⟨?_, ?_, ?_, ?_, ?_⟩
  · rw [Nat.floor_div_nat rate sfps]
    rfl
  · intro i
    rw [hproc]
    simp [List.mem_filter, List.mem_range]
  · rw [hproc]
    exact (List.pairwise_lt_range frames.length).sublist (List.filter_sublist _)
  · intro h30
    subst h30
    norm_num [frame_interval]
  · intro hle
    have hfl : ⌊rate⌋₊ ≤ sfps := by
      have := Nat.floor_le_floor hle
      rwa [Nat.floor_natCast] at this
    have hdiv : ⌊rate⌋₊ / sfps ≤ 1 := by
      calc ⌊rate⌋₊ / sfps ≤ sfps / sfps := Nat.div_le_div_right hfl
        _ = 1 := Nat.div_self (by omega)
    have hone : frame_interval ⌊rate⌋₊ sfps = 1 := by
      unfold frame_interval
      omega
    refine ⟨hone, ?_⟩
    rw [hproc, hone]
    simp [Nat.mod_one]

theorem C3_sampling_law_witness :
    ∃ pp' stats st,
      process_video initPipeline (List.replicate 61 ⟨none, 1, []⟩)
        ⌊(30 : ℚ)⌋₊ 1 [] none = .ok (pp', stats, st) ∧
      (∀ i, i ∈ st.processed ↔ i < 61 ∧ i % frame_interval ⌊(30 : ℚ)⌋₊ 1 = 0) ∧
      st.processed.Pairwise (· < ·) ∧ frame_interval ⌊(30 : ℚ)⌋₊ 1 = 30 := by
  obtain ⟨pp', stats, st, h1, -, -, -, -, -, -, -, -, -, -, -⟩ :=
    process_video_none_spec initPipeline (List.replicate 61 ⟨none, 1, []⟩)
      ⌊(30 : ℚ)⌋₊ 1 []
  have h := C3_sampling_law initPipeline (List.replicate 61 ⟨none, 1, []⟩) 30 1 []
    (by norm_num) (by norm_num) pp' stats st h1
  refine ⟨pp', stats, st, h1, ?_, h.2.2.1, h.2.2.2.1 rfl⟩
  intro i
  simpa [List.length_replicate] using h.2.1 i

/-- C8 counterexample: a second `process_video` call on the same pipeline
instance starts with the `inferenceTimesMs` accumulator non-empty —
`self.inference_times` is set only in `__init__`, never reset per run —
so `avg_inference_ms` depends on earlier runs: for the same one-frame
video (inference time 4s), a fresh instance reports 4000 ms while an
instance that already processed a 2s-frame video reports 3000 ms. -/
theorem C8_counterexample :
    ∃ pp1 stats1 st1 pp2 stats2 st2 ppF statsF stF,
      process_video initPipeline [⟨none, 2, []⟩] 1 1 [] none =
        .ok (pp1, stats1, st1) ∧
      process_video pp1 [⟨none, 4, []⟩] 1 1 [] none = .ok (pp2, stats2, st2) ∧
      process_video initPipeline [⟨none, 4, []⟩] 1 1 [] none =
        .ok (ppF, statsF, stF) ∧
      pp1.inference_times ≠ [] ∧
      stats2.avg_inference_ms = 3000 ∧
      statsF.avg_inference_ms = 4000 ∧
      stats2.avg_inference_ms ≠ statsF.avg_inference_ms := by
  obtain ⟨pp1, stats1, st1, h1, hit1, -, -, -, -, -, -, -, -, -, -⟩ :=
    process_video_none_spec initPipeline [⟨none, 2, []⟩] 1 1 []
  obtain ⟨pp2, stats2, st2, h2, -, -, -, -, -, -, -, havg2, -, -, -⟩ :=
    process_video_none_spec pp1 [⟨none, 4, []⟩] 1 1 []
  obtain ⟨ppF, statsF, stF, hF, -, -, -, -, -, -, -, havgF, -, -, -⟩ :=
    process_video_none_spec initPipeline [⟨none, 4, []⟩] 1 1 []
  have hpp1 : pp1.inference_times = [2] := by rw [hit1]; rfl
  have h2avg : stats2.avg_inference_ms = avgInferenceMs [2, 4] := by
    rw [havg2, hpp1]
    rfl
  have hFavg : statsF.avg_inference_ms = avgInferenceMs [4] := by
    rw [havgF]
    rfl
  have hv2 : avgInferenceMs [2, 4] = 3000 := by
    norm_num [avgInferenceMs, List.sum_cons, List.sum_nil]
  have hvF : avgInferenceMs [4] = 4000 := by
    norm_num [avgInferenceMs, List.sum_cons, List.sum_nil]
  refine ⟨pp1, stats1, st1, pp2, stats2, st2, ppF, statsF, stF, h1, h2, hF,
    by rw [hpp1]; simp, by rw [h2avg, hv2], by rw [hFavg, hvF], ?_⟩
  rw [h2avg, hv2, hFavg, hvF]
  norm_num

/-- C8 amended: the counters `framesSeen` (`frame_count`),
`framesProcessed` (`processed_count`) and `detectionsEmitted`
(`detection_count`) are per-call locals that start at zero, so those
statistics are pure functions of the run's own inputs; but the
`inferenceTimesMs` accumulator (`self.inference_times`) is set only in
`__init__` and never reset per run: the run appends to whatever the
instance already holds, and `avg_inference_ms` is the mean over the
instance's entire history. -/
theorem C8_stats_partial_reset (pp : PerceptionPipeline) (frames : List FrameData)
    (v sfps : ℕ) (target : List String)
    (pp' : PerceptionPipeline) (stats : Stats) (st : LoopState)
    (hrun : process_video pp frames v sfps target none = .ok (pp', stats, st)) :
    stats.total_frames = frames.length ∧
    stats.processed_frames = ((List.range frames.length).filter
      (fun i => decide (i % frame_interval v sfps = 0))).length ∧
    stats.total_detections =
      (runRecs v (frame_interval v sfps) target frames 0 0).length ∧
    pp'.inference_times = pp.inference_times ++
      frameTimes (frame_interval v sfps) frames 0 ∧
    stats.avg_inference_ms = avgInferenceMs (pp.inference_times ++
      frameTimes (frame_interval v sfps) frames 0) := by
  obtain ⟨pp2, stats2, st2, h1, hit, -, -, -, htf, hpf, htd, havg, -, -, -⟩ :=
    process_video_none_spec pp frames v sfps target
  rw [hrun] at h1
  simp only [Except.ok.injEq, Prod.mk.injEq] at h1
  obtain ⟨hpp, hstats, hst⟩ := h1
  subst hpp
  subst hstats
  exact ⟨htf, hpf, htd, hit, havg⟩

theorem C8_stats_partial_reset_witness :
    ∃ pp' stats st,
      process_video initPipeline [⟨none, 2, []⟩] 1 1 [] none =
        .ok (pp', stats, st) ∧
      stats.total_frames = 1 ∧
      pp'.inference_times = initPipeline.inference_times ++
        frameTimes (frame_interval 1 1) [⟨none, 2, []⟩] 0 := by
  obtain ⟨pp', stats, st, h1, -, -, -, -, -, -, -, -, -, -, -⟩ :=
    process_video_none_spec initPipeline [⟨none, 2, []⟩] 1 1 []
  have h := C8_stats_partial_reset initPipeline [⟨none, 2, []⟩] 1 1 []
    pp' stats st h1
  exact ⟨pp', stats, st, h1, h.1, h.2.2.2.1⟩

theorem emitLoop_takeK (k v : ℕ) (t : List String) (g : ℚ × ℚ × ℚ) (fc : ℕ) :
    ∀ (ds : List RawDet) (st : LoopState), st.trace.length ≤ k →
      (∃ st', emitLoop (some k) v t g fc ds st = .ok st' ∧
        emitLoop none v t g fc ds st = .ok st' ∧ st'.trace.length ≤ k) ∨
      (∃ e stN, emitLoop (some k) v t g fc ds st = .error e ∧
        emitLoop none v t g fc ds st = .ok stN ∧
        e.trace = stN.trace.take k ∧ k < stN.trace.length) := by
  intro ds
  induction ds with
  | nil =>
    intro st hk
    exact Or.inl ⟨st, rfl, rfl, hk⟩
  | cons d ds ih =>
    intro st hk
    by_cases hcl : d.className ∈ t
    · by_cases hk1 : st.trace.length = k
      · right
        have hw : tryWrite (some k) st (WriteOp.patch fc st.detection_count) =
            .error st := by
          unfold tryWrite
          rw [if_pos (by rw [hk1])]
        obtain ⟨stN, n1, -, -, -, -, -, -, n8⟩ := emitLoop_none_spec v t g fc (d :: ds) st
        refine ⟨st, stN, ?_, n1, ?_, ?_⟩
        · simp only [emitLoop, hcl, if_true, hw]
        · rw [n8, ← hk1, List.take_left]
        · have hpos : 2 ≤
              ((emitRecs v t g fc st.detection_count (d :: ds)).flatMap pairOf).length := by
            simp [emitRecs, hcl, pairOf]
          rw [n8, List.length_append]
          omega
      · have hw1 : tryWrite (some k) st (WriteOp.patch fc st.detection_count) =
            .ok { st with trace := st.trace ++ [WriteOp.patch fc st.detection_count] } := by
          unfold tryWrite
          rw [if_neg (by simp only [Option.some.injEq]; omega)]
        by_cases hk2 : st.trace.length + 1 = k
        · right
          have hw2 : tryWrite (some k)
              { st with trace := st.trace ++ [WriteOp.patch fc st.detection_count] }
              (WriteOp.row fc st.detection_count) =
              .error { st with trace := st.trace ++ [WriteOp.patch fc st.detection_count] } := by
            unfold tryWrite
            rw [if_pos (by dsimp only; simp only [List.length_append, List.length_cons,
              List.length_nil]; rw [← hk2])]
          obtain ⟨stN, n1, -, -, -, -, -, -, n8⟩ :=
            emitLoop_none_spec v t g fc (d :: ds) st
          refine ⟨{ st with trace := st.trace ++ [WriteOp.patch fc st.detection_count] },
            stN, ?_, n1, ?_, ?_⟩
          · simp only [emitLoop, hcl, if_true, hw1, hw2]
          · dsimp only
            rw [n8]
            have hsh : st.trace ++ (emitRecs v t g fc st.detection_count (d :: ds)).flatMap
                pairOf = (st.trace ++ [WriteOp.patch fc st.detection_count]) ++
                  ([WriteOp.row fc st.detection_count] ++
                    (emitRecs v t g fc (st.detection_count + 1) ds).flatMap pairOf) := by
              simp [emitRecs, hcl, pairOf, mkRecord]
            rw [hsh, show k = (st.trace ++ [WriteOp.patch fc st.detection_count]).length from
              by simp only [List.length_append, List.length_cons, List.length_nil]; omega,
              List.take_left]
          · have hpos : 2 ≤
                ((emitRecs v t g fc st.detection_count (d :: ds)).flatMap pairOf).length := by
              simp [emitRecs, hcl, pairOf]
            rw [n8, List.length_append]
            omega
        · have hw2 : tryWrite (some k)
              { st with trace := st.trace ++ [WriteOp.patch fc st.detection_count] }
              (WriteOp.row fc st.detection_count) =
              .ok { st with trace := (st.trace ++ [WriteOp.patch fc st.detection_count]) ++
                [WriteOp.row fc st.detection_count] } := by
            unfold tryWrite
            rw [if_neg (by dsimp only; simp only [Option.some.injEq, List.length_append,
              List.length_cons, List.length_nil]; omega)]
          have hrec := ih
            { st with
              trace := (st.trace ++ [WriteOp.patch fc st.detection_count]) ++
                [WriteOp.row fc st.detection_count],
              records := st.records ++ [mkRecord v fc st.detection_count g d],
              detection_count := st.detection_count + 1 }
            (by dsimp only; simp only [List.length_append, List.length_cons,
              List.length_nil]; omega)
          have hsome : emitLoop (some k) v t g fc (d :: ds) st =
              emitLoop (some k) v t g fc ds
                { st with
                  trace := (st.trace ++ [WriteOp.patch fc st.detection_count]) ++
                    [WriteOp.row fc st.detection_count],
                  records := st.records ++ [mkRecord v fc st.detection_count g d],
                  detection_count := st.detection_count + 1 } := by
            simp only [emitLoop, hcl, if_true, hw1, hw2]
          have hnone : emitLoop none v t g fc (d :: ds) st =
              emitLoop none v t g fc ds
                { st with
                  trace := (st.trace ++ [WriteOp.patch fc st.detection_count]) ++
                    [WriteOp.row fc st.detection_count],
                  records := st.records ++ [mkRecord v fc st.detection_count g d],
                  detection_count := st.detection_count + 1 } := by
            simp only [emitLoop, hcl, if_true, tryWrite_none]
          rw [hsome, hnone]
          exact hrec
    · have hsome : emitLoop (some k) v t g fc (d :: ds) st =
          emitLoop (some k) v t g fc ds st := by
        simp only [emitLoop, hcl, if_false]
      have hnone : emitLoop none v t g fc (d :: ds) st =
          emitLoop none v t g fc ds st := by
        simp only [emitLoop, hcl, if_false]
      rw [hsome, hnone]
      exact ih st hk

theorem frameLoop_takeK (k v ki : ℕ) (t : List String) :
    ∀ (fs : List FrameData) (st : LoopState), st.trace.length ≤ k →
      (∃ st', frameLoop (some k) v ki t fs st = .ok st' ∧
        frameLoop none v ki t fs st = .ok st' ∧ st'.trace.length ≤ k) ∨
      (∃ e stN, frameLoop (some k) v ki t fs st = .error e ∧
        frameLoop none v ki t fs st = .ok stN ∧
        e.trace = stN.trace.take k ∧ k < stN.trace.length) := by
  intro fs
  induction fs with
  | nil =>
    intro st hk
    exact Or.inl ⟨st, rfl, rfl, hk⟩
  | cons f fs ih =>
    intro st hk
    by_cases hs : st.frame_count % ki = 0
    · rcases emitLoop_takeK k v t (extract_gps_from_frame f.ocrText st.frame_count)
        st.frame_count f.dets
        { st with inference_times := st.inference_times ++ [f.infTime],
                  processed := st.processed ++ [st.frame_count] }
        (by dsimp only; exact hk) with
        ⟨stE, es, en, elen⟩ | ⟨e, stEN, es, en, etk, eklt⟩
      · have hsome : frameLoop (some k) v ki t (f :: fs) st =
            frameLoop (some k) v ki t fs
              { stE with frame_count := stE.frame_count + 1,
                         processed_count := stE.processed_count + 1 } := by
          simp only [frameLoop, hs, if_true, es]
        have hnone : frameLoop none v ki t (f :: fs) st =
            frameLoop none v ki t fs
              { stE with frame_count := stE.frame_count + 1,
                         processed_count := stE.processed_count + 1 } := by
          simp only [frameLoop, hs, if_true, en]
        rw [hsome, hnone]
        exact ih _ (by dsimp only; exact elen)
      · right
        obtain ⟨stN', n1, -, -, -, -, -, -, n8⟩ := frameLoop_none_spec v ki t fs
          { stEN with frame_count := stEN.frame_count + 1,
                      processed_count := stEN.processed_count + 1 }
        refine ⟨e, stN', ?_, ?_, ?_, ?_⟩
        · simp only [frameLoop, hs, if_true, es]
        · simp only [frameLoop, hs, if_true, en, n1]
        · rw [n8]
          dsimp only
          rw [List.take_append_of_le_length (le_of_lt eklt)]
          exact etk
        · rw [n8]
          dsimp only
          rw [List.length_append]
          omega
    · have hsome : frameLoop (some k) v ki t (f :: fs) st =
          frameLoop (some k) v ki t fs { st with frame_count := st.frame_count + 1 } := by
        simp only [frameLoop, hs, if_false]
      have hnone : frameLoop none v ki t (f :: fs) st =
          frameLoop none v ki t fs { st with frame_count := st.frame_count + 1 } := by
        simp only [frameLoop, hs, if_false]
      rw [hsome, hnone]
      exact ih _ (by dsimp only; exact hk)

/-- C9 counterexample: records are not written atomically.  With one
qualifying detection and an `IOError` raised by the CSV-row write (the
second write of the run), the patch file has already been written
(`cv2.imwrite` precedes `csv_writer.writerow`), so the aborted run leaves
a record that is neither fully written nor unattempted: its patch exists,
its row does not. -/
theorem C9_counterexample :
    (finalState (process_video initPipeline
        [⟨none, 1, [⟨0, 0, 8, 8, 1, "stop sign"⟩]⟩] 1 1 ["stop sign"]
        (some 1))).trace = [WriteOp.patch 0 0] ∧
    WriteOp.row 0 0 ∉ (finalState (process_video initPipeline
        [⟨none, 1, [⟨0, 0, 8, 8, 1, "stop sign"⟩]⟩] 1 1 ["stop sign"]
        (some 1))).trace ∧
    ∃ e, process_video initPipeline
        [⟨none, 1, [⟨0, 0, 8, 8, 1, "stop sign"⟩]⟩] 1 1 ["stop sign"]
        (some 1) = .error e := by
  have h1 : (finalState (process_video initPipeline
      [⟨none, 1, [⟨0, 0, 8, 8, 1, "stop sign"⟩]⟩] 1 1 ["stop sign"]
      (some 1))).trace = [WriteOp.patch 0 0] := by decide
  have h2 : (process_video initPipeline
      [⟨none, 1, [⟨0, 0, 8, 8, 1, "stop sign"⟩]⟩] 1 1 ["stop sign"]
      (some 1)).isOk = false := by decide
  refine ⟨h1, ?_, ?_⟩
  · rw [h1]
    decide
  · cases hE : process_video initPipeline
        [⟨none, 1, [⟨0, 0, 8, 8, 1, "stop sign"⟩]⟩] 1 1 ["stop sign"]
        (some 1) with
    | error e => exact ⟨e, rfl⟩
    | ok x =>
      rw [hE] at h2
      simp [Except.isOk, Except.toBool] at h2

/-- C9 amended: an `IOError` on a patch or row write is propagated and
aborts the run; the writes performed before the abort are exactly the
first `k` writes of the failure-free run (a prefix — records already
written are preserved unchanged, with no rollback); and in the
failure-free run every emitted record contributes its adjacent
`[patch, row]` write pair, in emission order.  However a record is not
atomic: the patch write precedes the row write, so an `IOError` striking
the row write leaves that record's patch file written without its CSV
row (see the counterexample). -/
theorem C9_write_failure (pp : PerceptionPipeline) (frames : List FrameData)
    (v sfps : ℕ) (target : List String) (k : ℕ)
    (pp' : PerceptionPipeline) (stats : Stats) (st : LoopState)
    (hrun : process_video pp frames v sfps target none = .ok (pp', stats, st)) :
    st.trace = st.records.flatMap pairOf ∧
    (finalState (process_video pp frames v sfps target (some k))).trace =
      st.trace.take k ∧
    (k < st.trace.length →
      ∃ e, process_video pp frames v sfps target (some k) = .error e) := by
  obtain ⟨pp2, stats2, st2, h1, -, -, -, -, -, -, -, -, hrecs, htr, -⟩ :=
    process_video_none_spec pp frames v sfps target
  rw [hrun] at h1
  simp only [Except.ok.injEq, Prod.mk.injEq] at h1
  obtain ⟨-, -, hst⟩ := h1
  subst hst
  have hmain :
      (finalState (process_video pp frames v sfps target (some k))).trace =
        st.trace.take k ∧
      (k < st.trace.length →
        ∃ e, process_video pp frames v sfps target (some k) = .error e) := by
    obtain ⟨stL, hfl, -, -, -, -, -, -, -⟩ :=
      frameLoop_none_spec v (frame_interval v sfps) target frames
        { frame_count := 0, processed_count := 0, detection_count := 0,
          inference_times := pp.inference_times, records := [], trace := [],
          processed := [] }
    have hpr : process_video pp frames v sfps target none =
        .ok ({ pp with inference_times := stL.inference_times },
          { total_frames := stL.frame_count, processed_frames := stL.processed_count,
            total_detections := stL.detection_count,
            avg_inference_ms := avgInferenceMs stL.inference_times }, stL) := by
      simp only [process_video, hfl]
    rw [hrun] at hpr
    simp only [Except.ok.injEq, Prod.mk.injEq] at hpr
    obtain ⟨-, -, hstL⟩ := hpr
    subst hstL
    rcases frameLoop_takeK k v (frame_interval v sfps) target frames
      { frame_count := 0, processed_count := 0, detection_count := 0,
        inference_times := pp.inference_times, records := [], trace := [],
        processed := [] } (by dsimp only; exact Nat.zero_le k) with
      ⟨st2, s1, s2, slen⟩ | ⟨e, stN2, s1, s2, stk, sklt⟩
    · rw [hfl] at s2
      simp only [Except.ok.injEq] at s2
      subst s2
      constructor
      · rw [show process_video pp frames v sfps target (some k) =
            .ok ({ pp with inference_times := st.inference_times },
              { total_frames := st.frame_count,
                processed_frames := st.processed_count,
                total_detections := st.detection_count,
                avg_inference_ms := avgInferenceMs st.inference_times }, st) from
          by simp only [process_video, s1]]
        exact (List.take_of_length_le slen).symm
      · intro hlt
        omega
    · rw [hfl] at s2
      simp only [Except.ok.injEq] at s2
      subst s2
      constructor
      · rw [show process_video pp frames v sfps target (some k) = .error e from
          by simp only [process_video, s1]]
        exact stk
      · intro _
        exact ⟨e, by simp only [process_video, s1]⟩
  exact ⟨by rw [htr, hrecs], hmain.1, hmain.2⟩

theorem C9_write_failure_witness :
    ∃ pp' stats st,
      process_video initPipeline [⟨none, 1, [⟨0, 0, 8, 8, 1, "stop sign"⟩]⟩]
        1 1 ["stop sign"] none = .ok (pp', stats, st) ∧
      st.trace = st.records.flatMap pairOf ∧
      (finalState (process_video initPipeline
        [⟨none, 1, [⟨0, 0, 8, 8, 1, "stop sign"⟩]⟩] 1 1 ["stop sign"]
        (some 1))).trace = st.trace.take 1 := by
  obtain ⟨pp', stats, st, h1, -, -, -, -, -, -, -, -, -, -, -⟩ :=
    process_video_none_spec initPipeline [⟨none, 1, [⟨0, 0, 8, 8, 1, "stop sign"⟩]⟩]
      1 1 ["stop sign"]
  have h := C9_write_failure initPipeline _ 1 1 _ 1 pp' stats st h1
  exact ⟨pp', stats, st, h1, h.1, h.2.1⟩
